import Mathlib

/-!
# Sweeping robot: grid state, obstacle motion, depth-first sweep, persistence

A shallow embedding of the single translation unit of the sweeping-robot
simulator, and the properties of its specification that concern it.

## The model

* The global variables of the program (`map`, `rows`, `cols`, `cleaned_count`,
  `obstacles`, `dynamicObstacles`) are the fields of one record, `State`, that
  every function takes and returns.  `rows`, `cols` and the cell values are
  integers: the program reads the dimensions without checking them.
* `map` is a function of two integer coordinates.  The storage of the program
  is the square `0 ≤ i, j < MAX_SIZE`; the two whole-array loops
  (`initializeMap`, `updateMap`) touch exactly that square.  An access outside
  the square is undefined in the program and reads or writes the function in
  the model; statements that are about the storage carry the hypothesis that
  the grid fits (`rows < MAX_SIZE`, `cols < MAX_SIZE`).
* Calls of `rand()` read successive entries of a stream `rnd : Nat → Nat`; the
  field `randCalls` counts the entries consumed.  Quantifying over `rnd` is
  quantifying over all coin flips and all direction draws.
* `cleaningDFS` recurses, so its model takes a bound on the recursion depth
  and returns `none` when the bound is reached; `cleaningDFS_returns` shows that
  a bound above the number of free cells always suffices.
* The field `trace` is a ghost log of the writes made to `map` during a sweep.
  It is never read by the functions; the properties about what is visited, and
  in which order, are stated on it.
* `displayMap`, `delay`, `clearScreen` and `showMenu` only print or wait and
  are left out.  A map file is the list of the integers it holds.
-/

namespace Sweeper

/-- Side of the storage array: `const int MAX_SIZE = 50`. -/
def MAX_SIZE : Int := 50

/-- Contents of `int map[MAX_SIZE][MAX_SIZE]`, read as `m x y` for `map[x][y]`:
    0 not swept, -1 obstacle, 1..4 direction tags, 5 swept. -/
abbrev Grid := Int → Int → Int

/-- Valid index pair of the storage array. -/
def inArray (i j : Int) : Prop := 0 ≤ i ∧ i < MAX_SIZE ∧ 0 ≤ j ∧ j < MAX_SIZE

instance (i j : Int) : Decidable (inArray i j) := by
  unfold inArray; infer_instance

/-- The assignment `map[x][y] = v`. -/
def setCell (m : Grid) (x y v : Int) : Grid :=
  fun a b => if a = x ∧ b = y then v else m a b

/-- Record of `struct DynamicObstacle`. -/
structure DynamicObstacle where
  x : Int
  y : Int
deriving DecidableEq, Repr

/-- Which statement of the program performed a write to `map`. -/
inductive WriteKind where
  | mark    -- `map[x][y] = from_dir` in `cleaningDFS`
  | settle  -- `map[i][j] = 5` in `updateMap`
  | vacate  -- `map[obstacle.x][obstacle.y] = 0` in `updateDynamicObstacles`
  | occupy  -- `map[obstacle.x][obstacle.y] = -1` in `updateDynamicObstacles`
deriving DecidableEq, Repr

/-- One write to `map` (ghost record): the cell, the value it held and the value stored. -/
structure Write where
  kind : WriteKind
  x : Int
  y : Int
  before : Int
  after : Int
deriving DecidableEq, Repr

/-- The global variables of the program, together with the number of `rand()`
    results consumed so far and a ghost log of the writes that `cleaningDFS`,
    `updateDynamicObstacles` and `updateMap` made to `map` (oldest first). -/
structure State where
  map : Grid
  rows : Int
  cols : Int
  cleaned_count : Int
  obstacles : List (Int × Int)
  dynamicObstacles : List DynamicObstacle
  randCalls : Nat
  trace : List Write

/-- The values 1, 2, 3, 4 that `updateMap` rewrites. -/
def isTag (v : Int) : Prop := v = 1 ∨ v = 2 ∨ v = 3 ∨ v = 4

instance (v : Int) : Decidable (isTag v) := by
  unfold isTag; infer_instance

/-- `initializeMap`: every cell of the storage array becomes 0. -/
def initializeMap (s : State) : State :=
  { s with map := fun i j => if inArray i j then 0 else s.map i j }

/-- Indices `0 .. MAX_SIZE-1` in loop order. -/
def indexRange : List Int := (List.range MAX_SIZE.toNat).map Int.ofNat

/-- The writes of the double loop of `updateMap` on grid `m`, in loop order. -/
def settleWrites (m : Grid) : List Write :=
  indexRange.flatMap fun i =>
    indexRange.filterMap fun j =>
      if isTag (m i j) then some ⟨WriteKind.settle, i, j, m i j, 5⟩ else none

/-- `updateMap`: every cell of the storage array holding 1, 2, 3 or 4 becomes 5. -/
def updateMap (s : State) : State :=
  { s with
    map := fun i j => if inArray i j ∧ isTag (s.map i j) then 5 else s.map i j
    trace := s.trace ++ settleWrites s.map }

/-- The `switch (direction)` of `updateDynamicObstacles`: the candidate
    `(newX, newY)` for obstacle `o` (0 right, 1 down, 2 left, 3 up). -/
def destination (o : DynamicObstacle) (direction : Nat) : Int × Int :=
  match direction with
  | 0 => (o.x, o.y + 1)
  | 1 => (o.x + 1, o.y)
  | 2 => (o.x, o.y - 1)
  | 3 => (o.x - 1, o.y)
  | _ => (o.x, o.y)

/-- Body of the loop of `updateDynamicObstacles` for one obstacle `o` and the
    drawn `direction`: returns the grid, the obstacle record and the writes made. -/
def moveObstacle (rows cols : Int) (m : Grid) (o : DynamicObstacle) (direction : Nat) :
    Grid × DynamicObstacle × List Write :=
  let p := destination o direction
  if p.1 ≥ 1 ∧ p.1 ≤ rows ∧ p.2 ≥ 1 ∧ p.2 ≤ cols ∧ m p.1 p.2 = 0 then
    let m1 := setCell m o.x o.y 0
    (setCell m1 p.1 p.2 (-1), ⟨p.1, p.2⟩,
      [⟨WriteKind.vacate, o.x, o.y, m o.x o.y, 0⟩,
       ⟨WriteKind.occupy, p.1, p.2, m1 p.1 p.2, -1⟩])
  else (m, o, [])

/-- The loop of `updateDynamicObstacles` over the obstacles still to process:
    `k` is the index of the next `rand()` result. -/
def moveAll (rnd : Nat → Nat) (rows cols : Int) :
    List DynamicObstacle → Grid → Nat → Grid × List DynamicObstacle × List Write
  | [], m, _ => (m, [], [])
  | o :: rest, m, k =>
    let r := moveObstacle rows cols m o (rnd k % 4)
    let r2 := moveAll rnd rows cols rest r.1 (k + 1)
    (r2.1, r.2.1 :: r2.2.1, r.2.2 ++ r2.2.2)

/-- `updateDynamicObstacles`: each mobile obstacle in turn draws a direction
    and moves there when the destination is inside the grid and holds 0. -/
def updateDynamicObstacles (rnd : Nat → Nat) (s : State) : State :=
  let r := moveAll rnd s.rows s.cols s.dynamicObstacles s.map s.randCalls
  { s with
    map := r.1
    dynamicObstacles := r.2.1
    randCalls := s.randCalls + s.dynamicObstacles.length
    trace := s.trace ++ r.2.2 }

/-- The two assignments of `cleaningDFS` that follow its guard:
    `map[x][y] = from_dir; cleaned_count++`. -/
def markCell (s : State) (x y from_dir : Int) : State :=
  { s with
    map := setCell s.map x y from_dir
    cleaned_count := s.cleaned_count + 1
    trace := s.trace ++ [⟨WriteKind.mark, x, y, s.map x y, from_dir⟩] }

/-- `cleaningDFS(x, y, from_dir)`.  The first argument bounds the depth of the
    recursion; `none` means the bound was reached. -/
def cleaningDFS (rnd : Nat → Nat) : Nat → State → Int → Int → Int → Option State
  | 0, _, _, _, _ => none
  | fuel + 1, s, x, y, from_dir =>
    if x < 1 ∨ x > s.rows ∨ y < 1 ∨ y > s.cols ∨ s.map x y ≠ 0 then some s
    else
      let s1 := markCell s x y from_dir
      let s2 := updateDynamicObstacles rnd s1
      let s3 := updateMap s2
      (cleaningDFS rnd fuel s3 x (y + 1) 1).bind fun s4 =>
      (cleaningDFS rnd fuel s4 (x + 1) y 2).bind fun s5 =>
      (cleaningDFS rnd fuel s5 x (y - 1) 3).bind fun s6 =>
      cleaningDFS rnd fuel s6 (x - 1) y 4

/-- One iteration of the loop of `setupObstacles` for the coordinate read. -/
def addObstacle (rnd : Nat → Nat) (s : State) (x y : Int) : State :=
  if x ≥ 1 ∧ x ≤ s.rows ∧ y ≥ 1 ∧ y ≤ s.cols then
    let s1 : State :=
      { s with
        map := setCell s.map x y (-1)
        obstacles := s.obstacles ++ [(x, y)]
        randCalls := s.randCalls + 1 }
    if rnd s.randCalls % 2 = 0 then
      { s1 with dynamicObstacles := s1.dynamicObstacles ++ [⟨x, y⟩] }
    else s1
  else s

/-- `setupObstacles` on the list of coordinates typed in (its length is `count`). -/
def setupObstacles (rnd : Nat → Nat) (s : State) (coords : List (Int × Int)) : State :=
  coords.foldl (fun t p => addObstacle rnd t p.1 p.2) s

/-- Case 1 of the menu in `main`: read `rows` and `cols`, clear the array,
    write -1 back at every recorded obstacle. -/
def setDimensions (s : State) (r c : Int) : State :=
  let s1 := initializeMap { s with rows := r, cols := c }
  { s1 with map := s.obstacles.foldl (fun m p => setCell m p.1 p.2 (-1)) s1.map }

/-- Whitespace-separated integers of a map file, in file order. -/
abbrev MapFile := List Int

/-- `saveMap`: `none` when the file cannot be opened, else `rows cols` followed
    by one pair per recorded obstacle. -/
def saveMap (canOpen : Bool) (s : State) : Option MapFile :=
  if canOpen then
    some (s.rows :: s.cols :: s.obstacles.flatMap fun p => [p.1, p.2])
  else none

/-- The loop `while (inFile >> x >> y)` of `loadMap`. -/
def loadRecords : MapFile → State → State
  | x :: y :: rest, s =>
    if x ≥ 1 ∧ x ≤ s.rows ∧ y ≥ 1 ∧ y ≤ s.cols then
      loadRecords rest
        { s with map := setCell s.map x y (-1), obstacles := s.obstacles ++ [(x, y)] }
    else loadRecords rest s
  | _, s => s

/-- `loadMap`: `none` stands for a file that cannot be opened.  An extraction
    that meets the end of the file stores nothing, so `rows` or `cols` keep
    the value they had. -/
def loadMap (file : Option MapFile) (s : State) : State :=
  match file with
  | none => s
  | some toks =>
    let s1 : State := { initializeMap s with obstacles := [] }
    match toks with
    | r :: c :: rest => loadRecords rest { s1 with rows := r, cols := c }
    | [r] => { s1 with rows := r }
    | [] => s1

/-- State at program start-up: zero-initialised globals, empty containers. -/
def initialState : State :=
  { map := fun _ _ => 0, rows := 0, cols := 0, cleaned_count := 0,
    obstacles := [], dynamicObstacles := [], randCalls := 0, trace := [] }

/-- A `r × c` grid with every cell 0, no obstacle, counter 0. -/
def emptyState (r c : Int) : State :=
  { initialState with rows := r, cols := c }

/-! ## Notions used to state and prove the properties -/

/-- The guard of `cleaningDFS` lets the call through: `(x, y)` lies in
    `1..rows × 1..cols` and holds 0. -/
def enters (s : State) (x y : Int) : Prop :=
  1 ≤ x ∧ x ≤ s.rows ∧ 1 ≤ y ∧ y ≤ s.cols ∧ s.map x y = 0

/-- Cell of the logical grid `1..rows × 1..cols`. -/
def inGrid (s : State) (p : Int × Int) : Prop :=
  1 ≤ p.1 ∧ p.1 ≤ s.rows ∧ 1 ≤ p.2 ∧ p.2 ≤ s.cols

/-- Cell of the logical grid that holds 0 (UNVISITED). -/
def free (s : State) (p : Int × Int) : Prop :=
  inGrid s p ∧ s.map p.1 p.2 = 0

/-- The four neighbours of `p`: right, down, left, up. -/
def adjacent (p q : Int × Int) : Prop :=
  q = (p.1, p.2 + 1) ∨ q = (p.1 + 1, p.2) ∨ q = (p.1, p.2 - 1) ∨ q = (p.1 - 1, p.2)

/-- Cell `b` is joined to `a` by a 4-neighbour path of free cells of `s`
    (both ends included). -/
inductive Joined (s : State) : Int × Int → Int × Int → Prop where
  | start {a : Int × Int} : free s a → Joined s a a
  | step {a b c : Int × Int} : Joined s a b → adjacent b c → free s c → Joined s a c

/-- The cells marked by `cleaningDFS` in a log, in the order they were marked. -/
def marks (t : List Write) : List (Int × Int) :=
  t.filterMap fun w => if w.kind = WriteKind.mark then some (w.x, w.y) else none

/-- The writes logged between state `s` and a later state `s'`. -/
def runTrace (s s' : State) : List Write := s'.trace.drop s.trace.length

/-- State in which the recursive calls of a visit start: the cell is marked,
    the obstacles have moved, the tags are settled. -/
def afterVisit (rnd : Nat → Nat) (s : State) (x y from_dir : Int) : State :=
  updateMap (updateDynamicObstacles rnd (markCell s x y from_dir))

/-- Cells of `1..rows × 1..cols` holding 0 in grid `m`. -/
def zeroSet (rows cols : Int) (m : Grid) : Finset (Int × Int) :=
  ((Finset.Icc 1 rows) ×ˢ (Finset.Icc 1 cols)).filter fun p => m p.1 p.2 = 0

/-- Number of free cells of a state. -/
def freeCount (s : State) : Nat := (zeroSet s.rows s.cols s.map).card

/-- Budget relation of a call: dimensions are kept, and the marks made plus
    the free cells left do not exceed the free cells at the start. -/
def Budget (s : State) (_x _y d : Int) (s' : State) : Prop :=
  isTag d → s'.rows = s.rows ∧ s'.cols = s.cols ∧
    s'.cleaned_count - s.cleaned_count + (freeCount s' : Int) ≤ (freeCount s : Int) ∧
    s.cleaned_count ≤ s'.cleaned_count

/-- Value `b` is value `a`, up to the rewrite of a tag to 5 by `updateMap`. -/
def Kept (a b : Int) : Prop := b = a ∨ (isTag a ∧ b = 5)

/-- What a stretch of a run without mobile obstacles does between two states:
    free cells only disappear, the cells that stop being free are exactly the
    cells marked (each once, each counted once), every other cell is kept. -/
structure Sweep (s s' : State) : Prop where
  dyn : s'.dynamicObstacles = []
  rows : s'.rows = s.rows
  cols : s'.cols = s.cols
  obstacles : s'.obstacles = s.obstacles
  randCalls : s'.randCalls = s.randCalls
  mono : ∀ p, free s' p → free s p
  kept : ∀ p, (free s p ∧ ¬ free s' p) ∨ Kept (s.map p.1 p.2) (s'.map p.1 p.2)
  log : ∃ t, s'.trace = s.trace ++ t ∧ (marks t).Nodup ∧
    (∀ p, p ∈ marks t ↔ (free s p ∧ ¬ free s' p)) ∧
    s'.cleaned_count = s.cleaned_count + ((marks t).length : Int)

/-- No free cell is left next to a cell swept between `s` and `s'`. -/
def Closed (s s' : State) : Prop :=
  ∀ p, free s p → ¬ free s' p → ∀ q, adjacent p q → ¬ free s' q

/-- Every cell swept between `s` and `s'` is joined to `a` in `s`. -/
def Within (s s' : State) (a : Int × Int) : Prop :=
  ∀ p, free s p → ¬ free s' p → Joined s a p

/-- Relation established by a call of `cleaningDFS` when no obstacle is mobile. -/
def SweepCall (s : State) (x y d : Int) (s' : State) : Prop :=
  isTag d → s.dynamicObstacles = [] →
    Sweep s s' ∧ ¬ free s' (x, y) ∧ Closed s s' ∧ Within s s' (x, y)

instance (s : State) (x y : Int) : Decidable (enters s x y) := by
  unfold enters; infer_instance

instance (s : State) (p : Int × Int) : Decidable (inGrid s p) := by
  unfold inGrid; infer_instance

instance (s : State) (p : Int × Int) : Decidable (free s p) := by
  unfold free; infer_instance

instance (p q : Int × Int) : Decidable (adjacent p q) := by
  unfold adjacent; infer_instance

/-- No free cell of the final state is a neighbour of a cell marked in the run. -/
def NoFreeNeighbour (s s' : State) : Prop :=
  ∀ p ∈ marks (runTrace s s'), ∀ q, adjacent p q → ¬ free s' q

/-- The 3 × 3 grid with a static obstacle at `(2,2)`. -/
def centreBlocked : State := setupObstacles (fun _ => 1) (emptyState 3 3) [(2, 2)]

/-- The 3 × 3 grid cut by the static wall `(1,2)`, `(2,2)`, `(3,2)`. -/
def walled : State := setupObstacles (fun _ => 1) (emptyState 3 3) [(1, 2), (2, 2), (3, 2)]

/-- Results of `rand()` for the 2 × 2 run: the coin flip makes the obstacle
    mobile, then it draws up (blocked) and down (moves). -/
def rndC3 : Nat → Nat := fun k => if k = 1 then 3 else if k = 2 then 1 else 0

/-- The 2 × 2 grid with one mobile obstacle at `(1,2)`. -/
def stateC3 : State := setupObstacles rndC3 (emptyState 2 2) [(1, 2)]

/-- Coordinates stored in the mobile-obstacle list, in list order. -/
def positions (l : List DynamicObstacle) : List (Int × Int) := l.map fun o => (o.x, o.y)

/-- Every mobile obstacle stands on a cell holding -1 and no two share a cell. -/
def Placed (m : Grid) (l : List DynamicObstacle) : Prop :=
  (positions l).Nodup ∧ ∀ o ∈ l, m o.x o.y = -1

/-- Every cell holding -1 carries a mobile obstacle or belongs to `fixed`. -/
def Covered (m : Grid) (l : List DynamicObstacle) (fixed : Set (Int × Int)) : Prop :=
  ∀ i j, m i j = -1 → (i, j) ∈ positions l ∨ (i, j) ∈ fixed

/-- Cell by cell, grid `m'` differs from `m` only by -1 turned into 0 or 0 into -1. -/
def Shift (m m' : Grid) : Prop :=
  ∀ i j, m' i j = m i j ∨ (m i j = -1 ∧ m' i j = 0) ∨ (m i j = 0 ∧ m' i j = -1)

/-- Cell swept by the robot: it holds neither 0 nor -1. -/
def swept (m : Grid) (p : Int × Int) : Prop := m p.1 p.2 ≠ 0 ∧ m p.1 p.2 ≠ -1

/-- Obstacle bookkeeping is consistent: the mobile obstacles stand on cells of
    their own holding -1, the cells of `fixed` hold -1 and carry no mobile
    obstacle, and no other cell holds -1. -/
def Tidy (fixed : Set (Int × Int)) (m : Grid) (l : List DynamicObstacle) : Prop :=
  Placed m l ∧ Covered m l fixed ∧ ∀ p ∈ fixed, m p.1 p.2 = -1 ∧ p ∉ positions l

/-- Coordinates of the recorded obstacles that were not made mobile. -/
def staticOnly (s : State) : List (Int × Int) :=
  s.obstacles.filter fun p => decide (p ∉ positions s.dynamicObstacles)

/-- What a stretch of a run does between two states when the obstacle
    bookkeeping is consistent: it stays consistent, swept cells stay swept, no
    cell is marked twice, every marked cell was not swept before and is swept
    after, and the counter grows by the number of marked cells. -/
def Distinct (fixed : Set (Int × Int)) (s s' : State) : Prop :=
  Tidy fixed s'.map s'.dynamicObstacles ∧
    (∀ p, swept s.map p → swept s'.map p) ∧
    ∃ t, s'.trace = s.trace ++ t ∧ (marks t).Nodup ∧
      (∀ p ∈ marks t, swept s'.map p ∧ ¬ swept s.map p) ∧
      s'.cleaned_count = s.cleaned_count + ((marks t).length : Int)

/-- Relation established by a call of `cleaningDFS` when the obstacle
    bookkeeping is consistent. -/
def DistinctCall (fixed : Set (Int × Int)) (s : State) (_x _y d : Int) (s' : State) : Prop :=
  isTag d → Tidy fixed s.map s.dynamicObstacles → Distinct fixed s s'

/-- The grid and the two obstacle lists agree: the cells holding -1 are the
    recorded coordinates, and the mobile obstacles stand on recorded
    coordinates, each on its own. -/
def Recorded (s : State) : Prop :=
  Placed s.map s.dynamicObstacles ∧ (∀ i j, s.map i j = -1 ↔ (i, j) ∈ s.obstacles) ∧
    ∀ p ∈ positions s.dynamicObstacles, p ∈ s.obstacles

/-- Results of `rand()` for the 2 × 3 run: two coin flips making both obstacles
    mobile, then one direction per obstacle after each marked cell. -/
def rndC4 : Nat → Nat := fun k => [0, 0, 1, 3, 2, 1, 3, 2, 3, 2, 3, 2].getD k 0

/-- The 2 × 3 grid on which the coordinate `(1,2)` was typed in twice and both
    obstacles became mobile. -/
def stateC4 : State := setupObstacles rndC4 (emptyState 2 3) [(1, 2), (1, 2)]

/-- State after `n` calls of `updateDynamicObstacles`. -/
def afterMoves (rnd : Nat → Nat) (n : Nat) (s : State) : State :=
  Nat.iterate (updateDynamicObstacles rnd) n s

/-- Results of `rand()` for the 1 × 2 example: both coin flips give a mobile
    obstacle, the first obstacle draws right, the second draws up. -/
def rndC5 : Nat → Nat := fun k => if k = 3 then 3 else 0

/-- The 1 × 2 grid on which the coordinate `(1,1)` was typed in twice and both
    obstacles became mobile. -/
def stateC5 : State := setupObstacles rndC5 (emptyState 1 2) [(1, 1), (1, 1)]

/-- A write that replaces a non-zero value by a different non-zero value. -/
def jumps (w : Write) : Prop := w.before ≠ 0 ∧ w.after ≠ 0 ∧ w.after ≠ w.before

instance (w : Write) : Decidable (jumps w) := by
  unfold jumps; infer_instance

/-- The four kinds of write of a run: the robot marks a cell holding 0 with a
    tag; `updateMap` turns a tag into 5; an obstacle stores 0 in the cell it
    leaves and -1 in a cell that held 0. -/
def Lawful (w : Write) : Prop :=
  (w.kind = WriteKind.mark ∧ w.before = 0 ∧ isTag w.after) ∨
  (w.kind = WriteKind.settle ∧ isTag w.before ∧ w.after = 5) ∨
  (w.kind = WriteKind.vacate ∧ w.after = 0) ∨
  (w.kind = WriteKind.occupy ∧ w.before = 0 ∧ w.after = -1)

/-- Relation established by a call of `cleaningDFS` on the log of writes. -/
def WritesCall (s : State) (_x _y d : Int) (s' : State) : Prop :=
  isTag d → ∃ t, s'.trace = s.trace ++ t ∧ (∀ w ∈ t, Lawful w) ∧
    s'.cleaned_count = s.cleaned_count + ((marks t).length : Int)

/-- Relation established by a call of `cleaningDFS` without mobile obstacles:
    only the robot and `updateMap` write. -/
def QuietCall (s : State) (_x _y d : Int) (s' : State) : Prop :=
  isTag d → s.dynamicObstacles = [] →
    s'.dynamicObstacles = [] ∧
      ∃ t, s'.trace = s.trace ++ t ∧
        ∀ w ∈ t, w.kind = WriteKind.mark ∨ w.kind = WriteKind.settle

/-- Dimensions 3 × 3, a static obstacle typed in at `(3,3)`, then dimensions 2 × 2. -/
def stateC9 : State :=
  setDimensions (setupObstacles (fun _ => 1) (setDimensions initialState 3 3) [(3, 3)]) 2 2

/-- Dimensions 3 × 3 and one obstacle typed in at `(1,1)` that the coin flip
    made mobile. -/
def stateC10 : State := setupObstacles (fun _ => 0) (setDimensions initialState 3 3) [(1, 1)]

/-- The records `(x, y)` of a map file with `1 ≤ x ≤ r` and `1 ≤ y ≤ c`, in
    file order. -/
def keptRecords (r c : Int) (records : List (Int × Int)) : List (Int × Int) :=
  records.filter fun p => decide (1 ≤ p.1 ∧ p.1 ≤ r ∧ 1 ≤ p.2 ∧ p.2 ≤ c)

/-- State after the complete sweep of the empty 1 × 1 grid (see `sweptOne_is_run`). -/
def sweptOne : State := afterVisit (fun _ => 0) (emptyState 1 1) 1 1 1

/-- The 1 × 3 grid on which the coordinate `(1,2)` was typed in twice and both
    obstacles stayed static. -/
def stateC15 : State := setupObstacles (fun _ => 1) (emptyState 1 3) [(1, 2), (1, 2)]

/-- Relation established by a call of `cleaningDFS`: the list of recorded
    obstacles is not touched. -/
def KeepsObstacles (s : State) (_x _y _d : Int) (s' : State) : Prop :=
  s'.obstacles = s.obstacles

/-! ## The order in which cells are marked -/

/-- The cells marked by `cleaningDFS` in a log with the tag each received, in
    the order they were marked. -/
def markEvents (t : List Write) : List (Int × Int × Int) :=
  t.filterMap fun w => if w.kind = WriteKind.mark then some (w.x, w.y, w.after) else none

/-- The grid obtained from `m` by replaying the writes of a log in order. -/
def applyWrites (m : Grid) (ws : List Write) : Grid :=
  ws.foldl (fun g w => setCell g w.x w.y w.after) m

/-- The neighbours of `p` in the order `cleaningDFS` tries them:
    0 right, 1 down, 2 left, 3 up. -/
def neighbour (p : Int × Int) (k : Nat) : Int × Int :=
  match k with
  | 0 => (p.1, p.2 + 1)
  | 1 => (p.1 + 1, p.2)
  | 2 => (p.1, p.2 - 1)
  | _ => (p.1 - 1, p.2)

/-- Cell `q` lies in `1..rows × 1..cols` and holds 0 in grid `g`. -/
def openCell (rows cols : Int) (g : Grid) (q : Int × Int) : Prop :=
  1 ≤ q.1 ∧ q.1 ≤ rows ∧ 1 ≤ q.2 ∧ q.2 ≤ cols ∧ g q.1 q.2 = 0

/-- The marks that follow in `rest` begin with the first open neighbour of `p`
    in grid `g`, if it has one, tagged with the direction taken. -/
def NextOK (rows cols : Int) (g : Grid) (p : Int × Int) (rest : List Write) : Prop :=
  ∀ k, k < 4 → openCell rows cols g (neighbour p k) →
    (∀ j, j < k → ¬ openCell rows cols g (neighbour p j)) →
    ∃ tail, markEvents rest =
      ((neighbour p k).1, (neighbour p k).2, (k : Int) + 1) :: tail

/-- Every mark of the log `t`, replayed from grid `g`, is followed as `NextOK` says. -/
def Ordered (rows cols : Int) : Grid → List Write → Prop
  | _, [] => True
  | g, w :: t =>
    (w.kind = WriteKind.mark →
      NextOK rows cols (setCell g w.x w.y w.after) (w.x, w.y) t) ∧
    Ordered rows cols (setCell g w.x w.y w.after) t

/-- Relation established by a call of `cleaningDFS` without mobile obstacles:
    the log replays to the final grid, respects the priority order, and begins
    with the mark of the cell of the call when the guard lets it through. -/
def OrderCall (s : State) (x y d : Int) (s' : State) : Prop :=
  s.dynamicObstacles = [] →
    s'.dynamicObstacles = [] ∧ s'.rows = s.rows ∧ s'.cols = s.cols ∧
    ∃ t, s'.trace = s.trace ++ t ∧ s'.map = applyWrites s.map t ∧
      Ordered s.rows s.cols s.map t ∧
      (enters s x y → ∃ tail, markEvents t = (x, y, d) :: tail) ∧
      (¬ enters s x y → t = [])

/-! ## Unfolding `cleaningDFS` -/

theorem enters_iff_guard (s : State) (x y : Int) :
    enters s x y ↔ ¬ (x < 1 ∨ x > s.rows ∨ y < 1 ∨ y > s.cols ∨ s.map x y ≠ 0) := by
  unfold enters
  constructor
  · rintro ⟨h1, h2, h3, h4, h5⟩ h
    rcases h with h | h | h | h | h
    · omega
    · omega
    · omega
    · omega
    · exact h h5
  · intro h
    simp only [not_or, not_lt, gt_iff_lt, ne_eq, not_not] at h
    exact ⟨h.1, h.2.1, h.2.2.1, h.2.2.2.1, h.2.2.2.2⟩

theorem cleaningDFS_skip (rnd : Nat → Nat) (fuel : Nat) (s : State) (x y d : Int)
    (h : ¬ enters s x y) : cleaningDFS rnd (fuel + 1) s x y d = some s := by
  rw [enters_iff_guard, not_not] at h
  simp only [cleaningDFS, if_pos h]

theorem cleaningDFS_visit (rnd : Nat → Nat) (fuel : Nat) (s : State) (x y d : Int)
    (h : enters s x y) :
    cleaningDFS rnd (fuel + 1) s x y d =
      (cleaningDFS rnd fuel (afterVisit rnd s x y d) x (y + 1) 1).bind fun s4 =>
      (cleaningDFS rnd fuel s4 (x + 1) y 2).bind fun s5 =>
      (cleaningDFS rnd fuel s5 x (y - 1) 3).bind fun s6 =>
      cleaningDFS rnd fuel s6 (x - 1) y 4 := by
  rw [enters_iff_guard] at h
  simp only [cleaningDFS, if_neg h, afterVisit]

/-- Rule for proving a relation `Q` between the state before a call of
    `cleaningDFS`, its arguments and the state after it. -/
theorem cleaningDFS_induct (rnd : Nat → Nat)
    (Q : State → Int → Int → Int → State → Prop)
    (hskip : ∀ s x y d, ¬ enters s x y → Q s x y d s)
    (hvisit : ∀ s x y d s4 s5 s6 s7, enters s x y →
      Q (afterVisit rnd s x y d) x (y + 1) 1 s4 → Q s4 (x + 1) y 2 s5 →
      Q s5 x (y - 1) 3 s6 → Q s6 (x - 1) y 4 s7 → Q s x y d s7) :
    ∀ fuel s x y d s', cleaningDFS rnd fuel s x y d = some s' → Q s x y d s' := by
  intro fuel
  induction fuel with
  | zero => intro s x y d s' h; simp [cleaningDFS] at h
  | succ n ih =>
    intro s x y d s' h
    by_cases he : enters s x y
    · rw [cleaningDFS_visit rnd n s x y d he] at h
      obtain ⟨s4, h4, h⟩ := Option.bind_eq_some.mp h
      obtain ⟨s5, h5, h⟩ := Option.bind_eq_some.mp h
      obtain ⟨s6, h6, h⟩ := Option.bind_eq_some.mp h
      exact hvisit s x y d s4 s5 s6 s' he (ih _ _ _ _ _ h4) (ih _ _ _ _ _ h5)
        (ih _ _ _ _ _ h6) (ih _ _ _ _ _ h)
    · rw [cleaningDFS_skip rnd n s x y d he] at h
      cases h
      exact hskip s x y d he

/-! ## Basic facts about the state transformers -/

theorem setCell_same (m : Grid) (x y v : Int) : setCell m x y v x y = v := by
  simp [setCell]

theorem setCell_other (m : Grid) (x y v a b : Int) (h : ¬ (a = x ∧ b = y)) :
    setCell m x y v a b = m a b := by
  simp [setCell, h]

theorem afterVisit_rows (rnd : Nat → Nat) (s : State) (x y d : Int) :
    (afterVisit rnd s x y d).rows = s.rows := rfl

theorem afterVisit_cols (rnd : Nat → Nat) (s : State) (x y d : Int) :
    (afterVisit rnd s x y d).cols = s.cols := rfl

theorem afterVisit_count (rnd : Nat → Nat) (s : State) (x y d : Int) :
    (afterVisit rnd s x y d).cleaned_count = s.cleaned_count + 1 := rfl

theorem afterVisit_obstacles (rnd : Nat → Nat) (s : State) (x y d : Int) :
    (afterVisit rnd s x y d).obstacles = s.obstacles := rfl

theorem mem_zeroSet (rows cols : Int) (m : Grid) (p : Int × Int) :
    p ∈ zeroSet rows cols m ↔
      (1 ≤ p.1 ∧ p.1 ≤ rows ∧ 1 ≤ p.2 ∧ p.2 ≤ cols) ∧ m p.1 p.2 = 0 := by
  simp [zeroSet, Finset.mem_filter, Finset.mem_product, Finset.mem_Icc, and_assoc]

theorem mem_zeroSet_iff_free (s : State) (p : Int × Int) :
    p ∈ zeroSet s.rows s.cols s.map ↔ free s p := by
  rw [mem_zeroSet]; rfl

theorem enters_iff_free (s : State) (x y : Int) : enters s x y ↔ free s (x, y) := by
  unfold enters free inGrid
  simp only [and_assoc]

theorem rnd_mod_lt (k : Nat) : k % 4 < 4 := Nat.mod_lt k (by decide)

/-- The destination drawn for an obstacle is never the cell it stands on. -/
theorem destination_ne (o : DynamicObstacle) (d : Nat) (hd : d < 4) :
    ¬ ((destination o d).1 = o.x ∧ (destination o d).2 = o.y) := by
  have h : d = 0 ∨ d = 1 ∨ d = 2 ∨ d = 3 := by omega
  rcases h with h | h | h | h <;> subst h <;> simp [destination]

/-- Outcome of one obstacle step: either nothing changes, or the obstacle
    leaves its cell for a free cell of the grid. -/
theorem moveObstacle_cases (rows cols : Int) (m : Grid) (o : DynamicObstacle) (d : Nat) :
    (moveObstacle rows cols m o d = (m, o, []) ∧
      ¬ ((1 ≤ (destination o d).1 ∧ (destination o d).1 ≤ rows ∧
          1 ≤ (destination o d).2 ∧ (destination o d).2 ≤ cols) ∧
          m (destination o d).1 (destination o d).2 = 0)) ∨
    (((1 ≤ (destination o d).1 ∧ (destination o d).1 ≤ rows ∧
          1 ≤ (destination o d).2 ∧ (destination o d).2 ≤ cols) ∧
          m (destination o d).1 (destination o d).2 = 0) ∧
      moveObstacle rows cols m o d =
        (setCell (setCell m o.x o.y 0) (destination o d).1 (destination o d).2 (-1),
         ⟨(destination o d).1, (destination o d).2⟩,
         [⟨WriteKind.vacate, o.x, o.y, m o.x o.y, 0⟩,
          ⟨WriteKind.occupy, (destination o d).1, (destination o d).2,
            setCell m o.x o.y 0 (destination o d).1 (destination o d).2, -1⟩])) := by
  by_cases h : (destination o d).1 ≥ 1 ∧ (destination o d).1 ≤ rows ∧
      (destination o d).2 ≥ 1 ∧ (destination o d).2 ≤ cols ∧
      m (destination o d).1 (destination o d).2 = 0
  · right
    refine ⟨⟨⟨h.1, h.2.1, h.2.2.1, h.2.2.2.1⟩, h.2.2.2.2⟩, ?_⟩
    simp only [moveObstacle, if_pos h]
  · left
    refine ⟨?_, ?_⟩
    · simp only [moveObstacle, if_neg h]
    · rintro ⟨⟨h1, h2, h3, h4⟩, h5⟩
      exact h ⟨h1, h2, h3, h4, h5⟩

/-- An obstacle step never increases the number of free cells. -/
theorem moveObstacle_zeroSet_card (rows cols : Int) (m : Grid) (o : DynamicObstacle) (d : Nat) :
    (zeroSet rows cols (moveObstacle rows cols m o d).1).card ≤ (zeroSet rows cols m).card := by
  rcases moveObstacle_cases rows cols m o d with ⟨h, _⟩ | ⟨⟨hin, hz⟩, h⟩
  · rw [h]
  · rw [h]
    have hmem : destination o d ∈ zeroSet rows cols m := (mem_zeroSet _ _ _ _).2 ⟨hin, hz⟩
    have hsub : zeroSet rows cols
        (setCell (setCell m o.x o.y 0) (destination o d).1 (destination o d).2 (-1)) ⊆
        insert (o.x, o.y) ((zeroSet rows cols m).erase (destination o d)) := by
      intro p hp
      rw [mem_zeroSet] at hp
      rw [Finset.mem_insert, Finset.mem_erase, mem_zeroSet]
      by_cases h1 : p.1 = (destination o d).1 ∧ p.2 = (destination o d).2
      · have := hp.2
        rw [h1.1, h1.2, setCell_same] at this
        omega
      · by_cases h2 : p.1 = o.x ∧ p.2 = o.y
        · left; exact Prod.ext h2.1 h2.2
        · right
          refine ⟨fun e => h1 ⟨by rw [e], by rw [e]⟩, hp.1, ?_⟩
          have := hp.2
          rwa [setCell_other _ _ _ _ _ _ h1, setCell_other _ _ _ _ _ _ h2] at this
    calc (zeroSet rows cols _).card
        ≤ (insert (o.x, o.y) ((zeroSet rows cols m).erase (destination o d))).card :=
          Finset.card_le_card hsub
      _ ≤ ((zeroSet rows cols m).erase (destination o d)).card + 1 := Finset.card_insert_le _ _
      _ = (zeroSet rows cols m).card := by
          rw [Finset.card_erase_of_mem hmem]
          have : 0 < (zeroSet rows cols m).card := Finset.card_pos.2 ⟨_, hmem⟩
          omega

theorem moveAll_zeroSet_card (rnd : Nat → Nat) (rows cols : Int) (l : List DynamicObstacle) :
    ∀ (m : Grid) (k : Nat),
      (zeroSet rows cols (moveAll rnd rows cols l m k).1).card ≤ (zeroSet rows cols m).card := by
  induction l with
  | nil => intro m k; simp [moveAll]
  | cons o rest ih =>
    intro m k
    simp only [moveAll]
    exact le_trans (ih _ _) (moveObstacle_zeroSet_card rows cols m o _)

/-! ## Termination: the number of free cells bounds the recursion -/

theorem isTag_ne_zero {d : Int} (h : isTag d) : d ≠ 0 := by
  unfold isTag at h; omega

theorem isTag_ne_neg_one {d : Int} (h : isTag d) : d ≠ -1 := by
  unfold isTag at h; omega

theorem isTag_one : isTag 1 := Or.inl rfl

theorem isTag_two : isTag 2 := Or.inr (Or.inl rfl)

theorem isTag_three : isTag 3 := Or.inr (Or.inr (Or.inl rfl))

theorem isTag_four : isTag 4 := Or.inr (Or.inr (Or.inr rfl))

/-- The value `updateMap` leaves in a cell is 0 exactly when the cell held 0. -/
theorem updateMap_map_eq_zero (s : State) (i j : Int) :
    (updateMap s).map i j = 0 ↔ s.map i j = 0 := by
  simp only [updateMap]
  by_cases h : inArray i j ∧ isTag (s.map i j)
  · rw [if_pos h]
    have := isTag_ne_zero h.2
    constructor
    · intro h5; omega
    · intro h0; exact absurd h0 this
  · rw [if_neg h]

theorem zeroSet_updateMap (s : State) :
    zeroSet (updateMap s).rows (updateMap s).cols (updateMap s).map =
      zeroSet s.rows s.cols s.map := by
  ext p
  rw [mem_zeroSet, mem_zeroSet, updateMap_map_eq_zero]
  rfl

theorem zeroSet_markCell (s : State) (x y d : Int) (hd : d ≠ 0) :
    zeroSet (markCell s x y d).rows (markCell s x y d).cols (markCell s x y d).map =
      (zeroSet s.rows s.cols s.map).erase (x, y) := by
  ext p
  rw [mem_zeroSet, Finset.mem_erase, mem_zeroSet]
  simp only [markCell]
  by_cases h : p.1 = x ∧ p.2 = y
  · have hp : p = (x, y) := Prod.ext h.1 h.2
    rw [h.1, h.2, setCell_same]
    constructor
    · intro h'; exact absurd h'.2 hd
    · intro h'; exact absurd hp h'.1
  · rw [setCell_other _ _ _ _ _ _ h]
    constructor
    · intro h'; exact ⟨fun e => h ⟨by rw [e], by rw [e]⟩, h'⟩
    · intro h'; exact h'.2

theorem freeCount_updateDynamicObstacles (rnd : Nat → Nat) (s : State) :
    freeCount (updateDynamicObstacles rnd s) ≤ freeCount s := by
  unfold freeCount
  exact moveAll_zeroSet_card rnd s.rows s.cols s.dynamicObstacles s.map s.randCalls

/-- A visit uses up one free cell, whatever the obstacles do. -/
theorem freeCount_afterVisit (rnd : Nat → Nat) (s : State) (x y d : Int)
    (he : enters s x y) (hd : isTag d) :
    freeCount (afterVisit rnd s x y d) + 1 ≤ freeCount s := by
  have h1 : freeCount (afterVisit rnd s x y d) =
      freeCount (updateDynamicObstacles rnd (markCell s x y d)) := by
    unfold freeCount afterVisit
    rw [zeroSet_updateMap]
  have h2 := freeCount_updateDynamicObstacles rnd (markCell s x y d)
  have h3 : freeCount (markCell s x y d) + 1 = freeCount s := by
    unfold freeCount
    rw [zeroSet_markCell s x y d (isTag_ne_zero hd)]
    have hmem : (x, y) ∈ zeroSet s.rows s.cols s.map :=
      (mem_zeroSet_iff_free s (x, y)).2 ((enters_iff_free s x y).1 he)
    rw [Finset.card_erase_of_mem hmem]
    have : 0 < (zeroSet s.rows s.cols s.map).card := Finset.card_pos.2 ⟨_, hmem⟩
    omega
  omega

theorem cleaningDFS_budget (rnd : Nat → Nat) (fuel : Nat) (s : State) (x y d : Int)
    (s' : State) (h : cleaningDFS rnd fuel s x y d = some s') : Budget s x y d s' := by
  refine cleaningDFS_induct rnd Budget ?_ ?_ fuel s x y d s' h
  · intro s x y d _ _
    exact ⟨rfl, rfl, by omega, le_refl _⟩
  · intro s x y d s4 s5 s6 s7 he h4 h5 h6 h7 hd
    obtain ⟨r4, c4, b4, m4⟩ := h4 isTag_one
    obtain ⟨r5, c5, b5, m5⟩ := h5 isTag_two
    obtain ⟨r6, c6, b6, m6⟩ := h6 isTag_three
    obtain ⟨r7, c7, b7, m7⟩ := h7 isTag_four
    have hv := freeCount_afterVisit rnd s x y d he hd
    rw [afterVisit_count] at b4 m4
    rw [afterVisit_rows] at r4
    rw [afterVisit_cols] at c4
    refine ⟨by rw [r7, r6, r5, r4], by rw [c7, c6, c5, c4], ?_, ?_⟩
    · omega
    · omega

/-- With more fuel than free cells the call returns. -/
theorem cleaningDFS_returns (rnd : Nat → Nat) :
    ∀ (fuel : Nat) (s : State) (x y d : Int), isTag d → freeCount s < fuel →
      ∃ s', cleaningDFS rnd fuel s x y d = some s' := by
  intro fuel
  induction fuel with
  | zero => intro s x y d _ h; omega
  | succ n ih =>
    intro s x y d hd hf
    by_cases he : enters s x y
    · have hv := freeCount_afterVisit rnd s x y d he hd
      obtain ⟨s4, h4⟩ := ih (afterVisit rnd s x y d) x (y + 1) 1 isTag_one (by omega)
      have b4 := (cleaningDFS_budget rnd n _ _ _ _ s4 h4 isTag_one).2.2.1
      have m4 := (cleaningDFS_budget rnd n _ _ _ _ s4 h4 isTag_one).2.2.2
      obtain ⟨s5, h5⟩ := ih s4 (x + 1) y 2 isTag_two (by omega)
      have b5 := (cleaningDFS_budget rnd n _ _ _ _ s5 h5 isTag_two).2.2.1
      have m5 := (cleaningDFS_budget rnd n _ _ _ _ s5 h5 isTag_two).2.2.2
      obtain ⟨s6, h6⟩ := ih s5 x (y - 1) 3 isTag_three (by omega)
      have b6 := (cleaningDFS_budget rnd n _ _ _ _ s6 h6 isTag_three).2.2.1
      have m6 := (cleaningDFS_budget rnd n _ _ _ _ s6 h6 isTag_three).2.2.2
      obtain ⟨s7, h7⟩ := ih s6 (x - 1) y 4 isTag_four (by omega)
      refine ⟨s7, ?_⟩
      rw [cleaningDFS_visit rnd n s x y d he, h4, Option.some_bind, h5,
        Option.some_bind, h6, Option.some_bind, h7]
    · exact ⟨s, cleaningDFS_skip rnd n s x y d he⟩

/-- The grid `1..rows × 1..cols` has `max rows 0 * max cols 0` cells. -/
theorem freeCount_le (s : State) : freeCount s ≤ s.rows.toNat * s.cols.toNat := by
  unfold freeCount zeroSet
  calc _ ≤ ((Finset.Icc 1 s.rows) ×ˢ (Finset.Icc 1 s.cols)).card := Finset.card_filter_le _ _
    _ = s.rows.toNat * s.cols.toNat := by
      rw [Finset.card_product, Int.card_Icc, Int.card_Icc]
      simp

/-! ## The log of writes -/

theorem marks_append (a b : List Write) : marks (a ++ b) = marks a ++ marks b := by
  simp [marks, List.filterMap_append]

theorem marks_nil : marks [] = [] := rfl

theorem marks_eq_nil_of_kind (t : List Write) (h : ∀ w ∈ t, w.kind ≠ WriteKind.mark) :
    marks t = [] := by
  induction t with
  | nil => rfl
  | cons w rest ih =>
    have hw : w.kind ≠ WriteKind.mark := h w (List.mem_cons_self _ _)
    have hr : marks rest = [] := ih fun v hv => h v (List.mem_cons_of_mem _ hv)
    unfold marks at hr ⊢
    rw [List.filterMap_cons, if_neg hw]
    exact hr

theorem marks_mark_cons (x y a b : Int) (t : List Write) :
    marks (⟨WriteKind.mark, x, y, a, b⟩ :: t) = (x, y) :: marks t := by
  simp [marks, List.filterMap_cons]

theorem runTrace_of_append (s s' : State) (t : List Write) (h : s'.trace = s.trace ++ t) :
    runTrace s s' = t := by
  simp [runTrace, h]

/-- Every write logged by `updateMap` turns a tag into 5. -/
theorem settleWrites_spec (m : Grid) (w : Write) (h : w ∈ settleWrites m) :
    w.kind = WriteKind.settle ∧ isTag w.before ∧ w.after = 5 ∧ w.before = m w.x w.y ∧
      inArray w.x w.y := by
  unfold settleWrites at h
  rw [List.mem_flatMap] at h
  obtain ⟨i, hi, h⟩ := h
  rw [List.mem_filterMap] at h
  obtain ⟨j, hj, h⟩ := h
  have hrange : ∀ k, k ∈ indexRange → 0 ≤ k ∧ k < MAX_SIZE := by
    intro k hk
    unfold indexRange at hk
    rw [List.mem_map] at hk
    obtain ⟨n, hn, rfl⟩ := hk
    rw [List.mem_range] at hn
    have : MAX_SIZE.toNat = 50 := rfl
    have h50 : MAX_SIZE = 50 := rfl
    rw [this] at hn
    rw [h50]
    constructor
    · exact Int.ofNat_nonneg n
    · show (n : Int) < 50
      omega
  by_cases ht : isTag (m i j)
  · rw [if_pos ht] at h
    cases h
    exact ⟨rfl, ht, rfl, rfl, (hrange i hi).1, (hrange i hi).2, (hrange j hj).1, (hrange j hj).2⟩
  · rw [if_neg ht] at h
    cases h

/-- Every write logged by one obstacle step either stores 0 in the cell the
    obstacle leaves or stores -1 in a cell that held 0. -/
theorem moveObstacle_writes (rows cols : Int) (m : Grid) (o : DynamicObstacle) (d : Nat)
    (w : Write) (h : w ∈ (moveObstacle rows cols m o d).2.2) :
    (w.kind = WriteKind.vacate ∧ w.after = 0) ∨
      (w.kind = WriteKind.occupy ∧ w.before = 0 ∧ w.after = -1) := by
  rcases moveObstacle_cases rows cols m o d with ⟨e, _⟩ | ⟨⟨_, hz⟩, e⟩
  · rw [e] at h; cases h
  · rw [e] at h
    simp only [List.mem_cons, List.mem_singleton, List.not_mem_nil, or_false] at h
    rcases h with h | h
    · left; rw [h]; exact ⟨rfl, rfl⟩
    · right
      rw [h]
      refine ⟨rfl, ?_, rfl⟩
      show setCell m o.x o.y 0 (destination o d).1 (destination o d).2 = 0
      by_cases hc : (destination o d).1 = o.x ∧ (destination o d).2 = o.y
      · rw [hc.1, hc.2, setCell_same]
      · rw [setCell_other _ _ _ _ _ _ hc]; exact hz

theorem moveAll_writes (rnd : Nat → Nat) (rows cols : Int) (l : List DynamicObstacle) :
    ∀ (m : Grid) (k : Nat) (w : Write), w ∈ (moveAll rnd rows cols l m k).2.2 →
      (w.kind = WriteKind.vacate ∧ w.after = 0) ∨
        (w.kind = WriteKind.occupy ∧ w.before = 0 ∧ w.after = -1) := by
  induction l with
  | nil => intro m k w h; simp [moveAll] at h
  | cons o rest ih =>
    intro m k w h
    simp only [moveAll, List.mem_append] at h
    rcases h with h | h
    · exact moveObstacle_writes rows cols m o _ w h
    · exact ih _ _ w h

/-- Shape of the log after a visit: the mark, then obstacle and settle writes. -/
theorem afterVisit_trace (rnd : Nat → Nat) (s : State) (x y d : Int) :
    ∃ t, (afterVisit rnd s x y d).trace = s.trace ++ ⟨WriteKind.mark, x, y, s.map x y, d⟩ :: t ∧
      marks t = [] ∧
      ∀ w ∈ t, (w.kind = WriteKind.vacate ∧ w.after = 0) ∨
        (w.kind = WriteKind.occupy ∧ w.before = 0 ∧ w.after = -1) ∨
        (w.kind = WriteKind.settle ∧ isTag w.before ∧ w.after = 5) := by
  refine ⟨(moveAll rnd s.rows s.cols s.dynamicObstacles (setCell s.map x y d) s.randCalls).2.2 ++
    settleWrites (updateDynamicObstacles rnd (markCell s x y d)).map, ?_, ?_, ?_⟩
  · simp [afterVisit, updateMap, updateDynamicObstacles, markCell]
  · apply marks_eq_nil_of_kind
    intro w hw
    rw [List.mem_append] at hw
    rcases hw with hw | hw
    · rcases moveAll_writes rnd _ _ _ _ _ w hw with h | h
      · rw [h.1]; decide
      · rw [h.1]; decide
    · rw [(settleWrites_spec _ w hw).1]; decide
  · intro w hw
    rw [List.mem_append] at hw
    rcases hw with hw | hw
    · rcases moveAll_writes rnd _ _ _ _ _ w hw with h | h
      · exact Or.inl h
      · exact Or.inr (Or.inl h)
    · have := settleWrites_spec _ w hw
      exact Or.inr (Or.inr ⟨this.1, this.2.1, this.2.2.1⟩)

/-! ## The sweep without mobile obstacles -/

theorem kept_trans {a b c : Int} (h1 : Kept a b) (h2 : Kept b c) : Kept a c := by
  unfold Kept at *
  rcases h1 with rfl | ⟨ha, rfl⟩
  · exact h2
  · rcases h2 with rfl | ⟨h5, _⟩
    · exact Or.inr ⟨ha, rfl⟩
    · unfold isTag at h5; omega

theorem sweep_refl (s : State) (h : s.dynamicObstacles = []) : Sweep s s where
  dyn := h
  rows := rfl
  cols := rfl
  obstacles := rfl
  randCalls := rfl
  mono := fun _ hp => hp
  kept := fun _ => Or.inr (Or.inl rfl)
  log := ⟨[], by simp, by simp [marks], by simp [marks], by simp [marks]⟩

theorem free_of_fields {s s' : State} (hr : s'.rows = s.rows) (hc : s'.cols = s.cols)
    (p : Int × Int) : free s' p ↔ inGrid s p ∧ s'.map p.1 p.2 = 0 := by
  unfold free inGrid
  rw [hr, hc]

theorem sweep_trans {s1 s2 s3 : State} (h12 : Sweep s1 s2) (h23 : Sweep s2 s3) :
    Sweep s1 s3 where
  dyn := h23.dyn
  rows := h23.rows.trans h12.rows
  cols := h23.cols.trans h12.cols
  obstacles := h23.obstacles.trans h12.obstacles
  randCalls := h23.randCalls.trans h12.randCalls
  mono := fun p hp => h12.mono p (h23.mono p hp)
  kept := by
    intro p
    rcases h12.kept p with ⟨hf, hn⟩ | k12
    · exact Or.inl ⟨hf, fun h => hn (h23.mono p h)⟩
    · rcases h23.kept p with ⟨hf, hn⟩ | k23
      · exact Or.inl ⟨h12.mono p hf, hn⟩
      · exact Or.inr (kept_trans k12 k23)
  log := by
    obtain ⟨t12, e12, n12, m12, c12⟩ := h12.log
    obtain ⟨t23, e23, n23, m23, c23⟩ := h23.log
    refine ⟨t12 ++ t23, ?_, ?_, ?_, ?_⟩
    · rw [e23, e12, List.append_assoc]
    · rw [marks_append, List.nodup_append]
      refine ⟨n12, n23, ?_⟩
      intro p hp1 hp2
      exact ((m12 p).1 hp1).2 ((m23 p).1 hp2).1
    · intro p
      rw [marks_append, List.mem_append, m12, m23]
      constructor
      · rintro (⟨hf, hn⟩ | ⟨hf, hn⟩)
        · exact ⟨hf, fun h => hn (h23.mono p h)⟩
        · exact ⟨h12.mono p hf, hn⟩
      · rintro ⟨hf, hn⟩
        by_cases h2 : free s2 p
        · exact Or.inr ⟨h2, hn⟩
        · exact Or.inl ⟨hf, h2⟩
    · rw [c23, c12, marks_append, List.length_append]
      push_cast
      ring

theorem updateDynamicObstacles_nil (rnd : Nat → Nat) (s : State)
    (h : s.dynamicObstacles = []) : updateDynamicObstacles rnd s = s := by
  cases s
  simp only at h
  subst h
  simp [updateDynamicObstacles, moveAll]

/-- Cell values after a visit when no obstacle is mobile. -/
theorem afterVisit_map (rnd : Nat → Nat) (s : State) (x y d : Int)
    (h : s.dynamicObstacles = []) (i j : Int) :
    (afterVisit rnd s x y d).map i j =
      if inArray i j ∧ isTag (setCell s.map x y d i j) then 5 else setCell s.map x y d i j := by
  have hm : (markCell s x y d).dynamicObstacles = [] := h
  unfold afterVisit
  rw [updateDynamicObstacles_nil rnd _ hm]
  rfl

theorem afterVisit_dyn (rnd : Nat → Nat) (s : State) (x y d : Int)
    (h : s.dynamicObstacles = []) : (afterVisit rnd s x y d).dynamicObstacles = [] := by
  have hm : (markCell s x y d).dynamicObstacles = [] := h
  unfold afterVisit
  rw [updateDynamicObstacles_nil rnd _ hm]
  exact hm

theorem afterVisit_randCalls (rnd : Nat → Nat) (s : State) (x y d : Int)
    (h : s.dynamicObstacles = []) : (afterVisit rnd s x y d).randCalls = s.randCalls := by
  have hm : (markCell s x y d).dynamicObstacles = [] := h
  unfold afterVisit
  rw [updateDynamicObstacles_nil rnd _ hm]
  rfl

/-- After a visit without mobile obstacles the free cells are the former free
    cells except the visited one. -/
theorem free_afterVisit (rnd : Nat → Nat) (s : State) (x y d : Int)
    (h : s.dynamicObstacles = []) (hd : isTag d) (p : Int × Int) :
    free (afterVisit rnd s x y d) p ↔ free s p ∧ p ≠ (x, y) := by
  rw [free_of_fields (afterVisit_rows rnd s x y d) (afterVisit_cols rnd s x y d)]
  have hz : (afterVisit rnd s x y d).map p.1 p.2 = 0 ↔ setCell s.map x y d p.1 p.2 = 0 := by
    unfold afterVisit
    rw [updateMap_map_eq_zero, updateDynamicObstacles_nil rnd (markCell s x y d) h]
    rfl
  rw [hz]
  unfold free
  by_cases hp : p.1 = x ∧ p.2 = y
  · have e : p = (x, y) := Prod.ext hp.1 hp.2
    rw [hp.1, hp.2, setCell_same]
    constructor
    · intro h'; exact absurd h'.2 (isTag_ne_zero hd)
    · intro h'; exact absurd e h'.2
  · rw [setCell_other _ _ _ _ _ _ hp]
    constructor
    · intro h'; exact ⟨h', fun e => hp ⟨by rw [e], by rw [e]⟩⟩
    · intro h'; exact h'.1

theorem sweep_afterVisit (rnd : Nat → Nat) (s : State) (x y d : Int)
    (h : s.dynamicObstacles = []) (hd : isTag d) (he : enters s x y) :
    Sweep s (afterVisit rnd s x y d) where
  dyn := afterVisit_dyn rnd s x y d h
  rows := rfl
  cols := rfl
  obstacles := rfl
  randCalls := afterVisit_randCalls rnd s x y d h
  mono := fun p hp => ((free_afterVisit rnd s x y d h hd p).1 hp).1
  kept := by
    intro p
    by_cases hp : p.1 = x ∧ p.2 = y
    · left
      have e : p = (x, y) := Prod.ext hp.1 hp.2
      rw [free_afterVisit rnd s x y d h hd p, e]
      exact ⟨(enters_iff_free s x y).1 he, fun h' => h'.2 rfl⟩
    · right
      rw [afterVisit_map rnd s x y d h, setCell_other _ _ _ _ _ _ hp]
      by_cases ht : inArray p.1 p.2 ∧ isTag (s.map p.1 p.2)
      · rw [if_pos ht]; exact Or.inr ⟨ht.2, rfl⟩
      · rw [if_neg ht]; exact Or.inl rfl
  log := by
    obtain ⟨t, e, hm, _⟩ := afterVisit_trace rnd s x y d
    refine ⟨_, e, ?_, ?_, ?_⟩
    · rw [marks_mark_cons, hm]; simp
    · intro p
      rw [marks_mark_cons, hm, List.mem_singleton, free_afterVisit rnd s x y d h hd p]
      constructor
      · intro e'
        rw [e']
        exact ⟨(enters_iff_free s x y).1 he, fun h' => h'.2 rfl⟩
      · rintro ⟨hf, hn⟩
        by_contra hne
        exact hn ⟨hf, hne⟩
    · rw [marks_mark_cons, hm, afterVisit_count]
      simp

theorem joined_mono {s1 s2 : State} (h : ∀ p, free s1 p → free s2 p) {a b : Int × Int}
    (hj : Joined s1 a b) : Joined s2 a b := by
  induction hj with
  | start hf => exact Joined.start (h _ hf)
  | step _ hadj hf ih => exact Joined.step ih hadj (h _ hf)

theorem joined_cons {s : State} {a b c : Int × Int} (ha : free s a) (hab : adjacent a b)
    (hj : Joined s b c) : Joined s a c := by
  induction hj with
  | start hf => exact Joined.step (Joined.start ha) hab hf
  | step _ hadj hf ih => exact Joined.step ih hadj hf

theorem joined_free_right {s : State} {a b : Int × Int} (hj : Joined s a b) : free s b := by
  cases hj with
  | start hf => exact hf
  | step _ _ hf => exact hf

/-- A call of `cleaningDFS` without mobile obstacles sweeps exactly the free
    cells joined to its cell and leaves no free cell next to a swept one. -/
theorem cleaningDFS_sweepCall (rnd : Nat → Nat) (fuel : Nat) (s : State) (x y d : Int)
    (s' : State) (h : cleaningDFS rnd fuel s x y d = some s') : SweepCall s x y d s' := by
  refine cleaningDFS_induct rnd SweepCall ?_ ?_ fuel s x y d s' h
  · intro s x y d he _ hdyn
    refine ⟨sweep_refl s hdyn, fun hf => he ((enters_iff_free s x y).2 hf), ?_, ?_⟩
    · intro p hf hn; exact absurd hf hn
    · intro p hf hn; exact absurd hf hn
  · intro s x y d s4 s5 s6 s7 he h4 h5 h6 h7 hd hdyn
    have S3 := sweep_afterVisit rnd s x y d hdyn hd he
    obtain ⟨S4, b4, c4, w4⟩ := h4 isTag_one S3.dyn
    obtain ⟨S5, b5, c5, w5⟩ := h5 isTag_two S4.dyn
    obtain ⟨S6, b6, c6, w6⟩ := h6 isTag_three S5.dyn
    obtain ⟨S7, b7, c7, w7⟩ := h7 isTag_four S6.dyn
    have hfree : free s (x, y) := (enters_iff_free s x y).1 he
    have f3 : ∀ p, free s p → p ≠ (x, y) → free (afterVisit rnd s x y d) p :=
      fun p hf hp => (free_afterVisit rnd s x y d hdyn hd p).2 ⟨hf, hp⟩
    have m76 : ∀ p, free s7 p → free s6 p := S7.mono
    have m75 : ∀ p, free s7 p → free s5 p := fun p hp => S6.mono p (m76 p hp)
    have m74 : ∀ p, free s7 p → free s4 p := fun p hp => S5.mono p (m75 p hp)
    have m73 : ∀ p, free s7 p → free (afterVisit rnd s x y d) p :=
      fun p hp => S4.mono p (m74 p hp)
    refine ⟨sweep_trans S3 (sweep_trans S4 (sweep_trans S5 (sweep_trans S6 S7))), ?_, ?_, ?_⟩
    · intro hf
      exact ((free_afterVisit rnd s x y d hdyn hd (x, y)).1 (m73 _ hf)).2 rfl
    · intro p hf hn q hadj hq
      by_cases hp : p = (x, y)
      · subst hp
        rcases hadj with e | e | e | e
        · rw [e] at hq; exact b4 (m74 _ hq)
        · rw [e] at hq; exact b5 (m75 _ hq)
        · rw [e] at hq; exact b6 (m76 _ hq)
        · rw [e] at hq; exact b7 hq
      · by_cases f4 : free s4 p
        · by_cases f5 : free s5 p
          · by_cases f6 : free s6 p
            · exact c7 p f6 hn q hadj hq
            · exact c6 p f5 f6 q hadj (m76 _ hq)
          · exact c5 p f4 f5 q hadj (m75 _ hq)
        · exact c4 p (f3 p hf hp) f4 q hadj (m74 _ hq)
    · intro p hf hn
      by_cases hp : p = (x, y)
      · rw [hp]; exact Joined.start hfree
      · by_cases f4 : free s4 p
        · by_cases f5 : free s5 p
          · by_cases f6 : free s6 p
            · exact joined_cons hfree (Or.inr (Or.inr (Or.inr rfl)))
                (joined_mono (sweep_trans S3 (sweep_trans S4 (sweep_trans S5 S6))).mono (w7 p f6 hn))
            · exact joined_cons hfree (Or.inr (Or.inr (Or.inl rfl)))
                (joined_mono (sweep_trans S3 (sweep_trans S4 S5)).mono (w6 p f5 f6))
          · exact joined_cons hfree (Or.inr (Or.inl rfl))
              (joined_mono (sweep_trans S3 S4).mono (w5 p f4 f5))
        · exact joined_cons hfree (Or.inl rfl)
            (joined_mono S3.mono (w4 p (f3 p hf hp) f4))

/-- Every cell joined to the cell of the call is swept by it. -/
theorem sweepCall_covers {s s' : State} {x y : Int}
    (hb : ¬ free s' (x, y)) (hc : Closed s s') {p : Int × Int} (hj : Joined s (x, y) p) :
    free s p ∧ ¬ free s' p := by
  induction hj with
  | start hf => exact ⟨hf, hb⟩
  | step _ hadj hf ih => exact ⟨hf, hc _ ih.1 ih.2 _ hadj⟩

/-- Summary of a run of `cleaningDFS(1,1,1)` without mobile obstacles. -/
theorem sweep_from_start (rnd : Nat → Nat) (s : State) (hdyn : s.dynamicObstacles = []) :
    ∃ fuel s', cleaningDFS rnd fuel s 1 1 1 = some s' ∧ Sweep s s' ∧
      (marks (runTrace s s')).Nodup ∧
      (∀ p, p ∈ marks (runTrace s s') ↔ Joined s (1, 1) p) ∧
      (∀ p, p ∈ marks (runTrace s s') ↔ (free s p ∧ ¬ free s' p)) ∧
      s'.cleaned_count = s.cleaned_count + ((marks (runTrace s s')).length : Int) ∧
      NoFreeNeighbour s s' := by
  obtain ⟨s', hrun⟩ := cleaningDFS_returns rnd (freeCount s + 1) s 1 1 1 isTag_one
    (Nat.lt_succ_self _)
  obtain ⟨hS, hb, hc, hw⟩ := cleaningDFS_sweepCall rnd _ s 1 1 1 s' hrun isTag_one hdyn
  obtain ⟨t, et, hn, hm, hcnt⟩ := hS.log
  have ert : runTrace s s' = t := runTrace_of_append s s' t et
  refine ⟨_, s', hrun, hS, ?_, ?_, ?_, ?_, ?_⟩
  · rw [ert]; exact hn
  · intro p
    rw [ert, hm]
    constructor
    · rintro ⟨hf, hnf⟩; exact hw p hf hnf
    · intro hj; exact sweepCall_covers hb hc hj
  · intro p; rw [ert]; exact hm p
  · rw [ert]; exact hcnt
  · intro p hp q hadj
    rw [ert, hm] at hp
    exact hc p hp.1 hp.2 q hadj

/-- The result of a run does not depend on the fuel, once it is enough. -/
theorem cleaningDFS_fuel_mono (rnd : Nat → Nat) :
    ∀ (fuel : Nat) (s : State) (x y d : Int) (s' : State),
      cleaningDFS rnd fuel s x y d = some s' → cleaningDFS rnd (fuel + 1) s x y d = some s' := by
  intro fuel
  induction fuel with
  | zero => intro s x y d s' h; simp [cleaningDFS] at h
  | succ n ih =>
    intro s x y d s' h
    by_cases he : enters s x y
    · rw [cleaningDFS_visit rnd n s x y d he] at h
      obtain ⟨s4, h4, h⟩ := Option.bind_eq_some.mp h
      obtain ⟨s5, h5, h⟩ := Option.bind_eq_some.mp h
      obtain ⟨s6, h6, h⟩ := Option.bind_eq_some.mp h
      rw [cleaningDFS_visit rnd (n + 1) s x y d he, ih _ _ _ _ _ h4, Option.some_bind,
        ih _ _ _ _ _ h5, Option.some_bind, ih _ _ _ _ _ h6, Option.some_bind, ih _ _ _ _ _ h]
    · rw [cleaningDFS_skip rnd n s x y d he] at h
      rw [cleaningDFS_skip rnd (n + 1) s x y d he]
      exact h

theorem cleaningDFS_fuel_le (rnd : Nat → Nat) (s : State) (x y d : Int) (s' : State)
    (n : Nat) (h : cleaningDFS rnd n s x y d = some s') :
    ∀ k, cleaningDFS rnd (n + k) s x y d = some s' := by
  intro k
  induction k with
  | zero => exact h
  | succ k ih => exact cleaningDFS_fuel_mono rnd (n + k) s x y d s' ih

/-- Two runs of the same call that both return give the same state. -/
theorem cleaningDFS_unique (rnd : Nat → Nat) (s : State) (x y d : Int) (s1 s2 : State)
    (n1 n2 : Nat) (h1 : cleaningDFS rnd n1 s x y d = some s1)
    (h2 : cleaningDFS rnd n2 s x y d = some s2) : s1 = s2 := by
  have e1 := cleaningDFS_fuel_le rnd s x y d s1 n1 h1 n2
  have e2 := cleaningDFS_fuel_le rnd s x y d s2 n2 h2 n1
  rw [Nat.add_comm] at e2
  rw [e1] at e2
  exact Option.some.inj e2

/-- In a grid whose cells all hold 0, every cell is joined to `(1,1)`. -/
theorem joined_of_all_zero (s : State) (hz : ∀ p, inGrid s p → s.map p.1 p.2 = 0)
    (hr : 1 ≤ s.rows) (hc : 1 ≤ s.cols) :
    ∀ x, 1 ≤ x → x ≤ s.rows → ∀ y, 1 ≤ y → y ≤ s.cols → Joined s (1, 1) (x, y) := by
  have hfree : ∀ x y, 1 ≤ x → x ≤ s.rows → 1 ≤ y → y ≤ s.cols → free s (x, y) :=
    fun x y h1 h2 h3 h4 => ⟨⟨h1, h2, h3, h4⟩, hz (x, y) ⟨h1, h2, h3, h4⟩⟩
  have hrow : ∀ y, 1 ≤ y → y ≤ s.cols → Joined s (1, 1) (1, y) := by
    intro y hy
    refine Int.le_induction (P := fun y => y ≤ s.cols → Joined s (1, 1) (1, y)) ?_ ?_ y hy
    · intro _; exact Joined.start (hfree 1 1 (le_refl _) hr (le_refl _) hc)
    · intro n hn ih hle
      exact Joined.step (ih (by omega)) (Or.inl rfl) (hfree 1 (n + 1) (le_refl _) hr (by omega) hle)
  intro x hx
  refine Int.le_induction
    (P := fun x => x ≤ s.rows → ∀ y, 1 ≤ y → y ≤ s.cols → Joined s (1, 1) (x, y)) ?_ ?_ x hx
  · intro _ y hy1 hy2; exact hrow y hy1 hy2
  · intro n hn ih hle y hy1 hy2
    exact Joined.step (ih (by omega) y hy1 hy2) (Or.inr (Or.inl rfl))
      (hfree (n + 1) y (by omega) hle hy1 hy2)

theorem count_eq_one_of_nodup {l : List (Int × Int)} {p : Int × Int} (hnd : l.Nodup)
    (h : p ∈ l) : l.count p = 1 := by
  have h1 : l.count p ≤ 1 := by
    induction l with
    | nil => simp
    | cons a rest ih =>
      rw [List.nodup_cons] at hnd
      rw [List.count_cons]
      by_cases e : a = p
      · subst e
        have : List.count a rest = 0 := List.count_eq_zero.2 hnd.1
        simp [this]
      · have hp : p ∈ rest := by
          rcases List.mem_cons.1 h with h' | h'
          · exact absurd h'.symm e
          · exact h'
        have := ih hnd.2 hp
        simp [e, this]
  have h2 : 1 ≤ l.count p := List.one_le_count_iff.2 h
  omega

/-! ## C1 - C3: coverage without and with mobile obstacles -/

/-- C1: on a grid with `rows ≥ 1`, `cols ≥ 1` that fits the storage array, all
    of whose cells hold 0, with no mobile obstacle and the counter at 0, the
    call `cleaningDFS(1,1,1)` returns, marks every cell `(x, y)` with
    `1 ≤ x ≤ rows`, `1 ≤ y ≤ cols` exactly once, marks no other cell, and
    ends with `cleaned_count = rows * cols`. -/
theorem C1_empty_grid_swept_once (rnd : Nat → Nat) (s : State)
    (hr : 1 ≤ s.rows) (hc : 1 ≤ s.cols) (hfit : s.rows < MAX_SIZE ∧ s.cols < MAX_SIZE)
    (hzero : ∀ i j, inArray i j → s.map i j = 0)
    (hdyn : s.dynamicObstacles = []) (hcount : s.cleaned_count = 0) :
    ∃ fuel s', cleaningDFS rnd fuel s 1 1 1 = some s' ∧
      (∀ x y, 1 ≤ x → x ≤ s.rows → 1 ≤ y → y ≤ s.cols →
        (marks (runTrace s s')).count (x, y) = 1) ∧
      (∀ p ∈ marks (runTrace s s'), inGrid s p) ∧
      s'.cleaned_count = s.rows * s.cols := by
  obtain ⟨fuel, s', hrun, _, hnd, hj, _, hcnt, _⟩ := sweep_from_start rnd s hdyn
  have hz : ∀ p, inGrid s p → s.map p.1 p.2 = 0 := by
    intro p hp
    apply hzero
    unfold inGrid at hp
    unfold inArray
    omega
  have hmem : ∀ p, p ∈ marks (runTrace s s') ↔ inGrid s p := by
    intro p
    rw [hj]
    constructor
    · intro h; exact (joined_free_right h).1
    · intro h; exact joined_of_all_zero s hz hr hc p.1 h.1 h.2.1 p.2 h.2.2.1 h.2.2.2
  refine ⟨fuel, s', hrun, ?_, fun p hp => (hmem p).1 hp, ?_⟩
  · intro x y h1 h2 h3 h4
    exact count_eq_one_of_nodup hnd ((hmem (x, y)).2 ⟨h1, h2, h3, h4⟩)
  · have hfin : (marks (runTrace s s')).toFinset =
        (Finset.Icc 1 s.rows) ×ˢ (Finset.Icc 1 s.cols) := by
      ext p
      rw [List.mem_toFinset, hmem, Finset.mem_product, Finset.mem_Icc, Finset.mem_Icc]
      unfold inGrid
      simp only [and_assoc]
    have hlen : (marks (runTrace s s')).length = s.rows.toNat * s.cols.toNat := by
      rw [← List.toFinset_card_of_nodup hnd, hfin, Finset.card_product, Int.card_Icc,
        Int.card_Icc]
      simp
    rw [hcnt, hcount, hlen]
    push_cast
    rw [Int.toNat_of_nonneg (by omega), Int.toNat_of_nonneg (by omega)]
    ring

/-- Witness for C1: the 1 × 1 grid. -/
theorem C1_empty_grid_swept_once_witness :
    ∃ fuel s', cleaningDFS (fun _ => 0) fuel (emptyState 1 1) 1 1 1 = some s' ∧
      (∀ x y, 1 ≤ x → x ≤ (emptyState 1 1).rows → 1 ≤ y → y ≤ (emptyState 1 1).cols →
        (marks (runTrace (emptyState 1 1) s')).count (x, y) = 1) ∧
      (∀ p ∈ marks (runTrace (emptyState 1 1) s'), inGrid (emptyState 1 1) p) ∧
      s'.cleaned_count = (emptyState 1 1).rows * (emptyState 1 1).cols :=
  C1_empty_grid_swept_once (fun _ => 0) (emptyState 1 1) (by decide) (by decide) (by decide)
    (fun _ _ _ => rfl) rfl rfl

/-- C2: with no mobile obstacle and the counter at 0, `cleaningDFS(1,1,1)`
    returns; the cells it marks are exactly the cells joined to `(1,1)` by a
    4-neighbour path of free cells (in bounds, holding 0), each is marked once
    and ends non-zero, the counter ends at the number of those cells, and
    every other cell that held 0 or -1 keeps its value (on a grid holding only
    0 and -1: every other cell). -/
theorem C2_sweep_is_region_of_start (rnd : Nat → Nat) (s : State)
    (hdyn : s.dynamicObstacles = []) (hcount : s.cleaned_count = 0) :
    ∃ fuel s', cleaningDFS rnd fuel s 1 1 1 = some s' ∧
      (∀ p, p ∈ marks (runTrace s s') ↔ Joined s (1, 1) p) ∧
      (marks (runTrace s s')).Nodup ∧
      s'.cleaned_count = ((Set.ncard {p | Joined s (1, 1) p} : Nat) : Int) ∧
      (∀ p, Joined s (1, 1) p → s'.map p.1 p.2 ≠ 0) ∧
      (∀ p, ¬ Joined s (1, 1) p → (s.map p.1 p.2 = 0 ∨ s.map p.1 p.2 = -1) →
        s'.map p.1 p.2 = s.map p.1 p.2) := by
  obtain ⟨fuel, s', hrun, hS, hnd, hj, hm, hcnt, _⟩ := sweep_from_start rnd s hdyn
  refine ⟨fuel, s', hrun, hj, hnd, ?_, ?_, ?_⟩
  · have hset : {p | Joined s (1, 1) p} = ((marks (runTrace s s')).toFinset : Set (Int × Int)) := by
      ext p
      simp only [Set.mem_setOf_eq, Finset.mem_coe, List.mem_toFinset]
      exact (hj p).symm
    rw [hset, Set.ncard_coe_Finset, List.toFinset_card_of_nodup hnd, hcnt, hcount]
    simp
  · intro p hp h0
    have := (hm p).1 ((hj p).2 hp)
    exact this.2 ((free_of_fields hS.rows hS.cols p).2 ⟨this.1.1, h0⟩)
  · intro p hnj hval
    rcases hS.kept p with hsw | hk
    · exact absurd ((hj p).1 ((hm p).2 hsw)) hnj
    · rcases hk with e | ⟨ht, _⟩
      · exact e
      · rcases hval with h0 | h1
        · rw [h0] at ht; exact absurd rfl (isTag_ne_zero ht)
        · rw [h1] at ht; exact absurd rfl (isTag_ne_neg_one ht)

theorem grid_values_of_setup (rnd : Nat → Nat) (coords : List (Int × Int)) :
    ∀ (s : State), (∀ i j, s.map i j = 0 ∨ s.map i j = -1) →
      ∀ i j, (setupObstacles rnd s coords).map i j = 0 ∨
        (setupObstacles rnd s coords).map i j = -1 := by
  induction coords with
  | nil => intro s h; exact h
  | cons c rest ih =>
    intro s h
    have hstep : ∀ i j, (addObstacle rnd s c.1 c.2).map i j = 0 ∨
        (addObstacle rnd s c.1 c.2).map i j = -1 := by
      intro i j
      unfold addObstacle
      split
      · split
        · show setCell s.map c.1 c.2 (-1) i j = 0 ∨ setCell s.map c.1 c.2 (-1) i j = -1
          unfold setCell
          split
          · right; rfl
          · exact h i j
        · show setCell s.map c.1 c.2 (-1) i j = 0 ∨ setCell s.map c.1 c.2 (-1) i j = -1
          unfold setCell
          split
          · right; rfl
          · exact h i j
      · exact h i j
    exact ih _ hstep

theorem exists_of_map_eq_some {α β : Type} (o : Option α) (f : α → β) (b : β)
    (h : o.map f = some b) : ∃ a, o = some a ∧ f a = b := by
  cases o with
  | none => simp at h
  | some a => exact ⟨a, rfl, by simpa using h⟩

set_option maxRecDepth 100000 in
/-- Scenario: with a static obstacle at `(2,2)` the 3 × 3 sweep marks the 8
    other cells; the counter ends at 8, which is `rows * cols` minus the number
    of recorded obstacles (coverage 100%). -/
theorem scenario_centre_blocked :
    (cleaningDFS (fun _ => 0) 9 centreBlocked 1 1 1).map
      (fun s' => (marks (runTrace centreBlocked s'), s'.cleaned_count,
        s'.rows * s'.cols - (s'.obstacles.length : Int))) =
    some ([(1, 1), (1, 2), (1, 3), (2, 3), (3, 3), (3, 2), (3, 1), (2, 1)], 8, 8) := by
  decide!

set_option maxRecDepth 100000 in
/-- Scenario: behind a wall in column 2 the 3 × 3 sweep stays in column 1; the
    cells of column 3 still hold 0 and the counter ends at 3, less than
    `rows * cols` minus the number of recorded obstacles, 6. -/
theorem scenario_walled :
    (cleaningDFS (fun _ => 0) 9 walled 1 1 1).map
      (fun s' => (marks (runTrace walled s'), s'.cleaned_count,
        s'.rows * s'.cols - (s'.obstacles.length : Int),
        s'.map 1 3, s'.map 2 3, s'.map 3 3)) =
    some ([(1, 1), (2, 1), (3, 1)], 3, 6, 0, 0, 0) := by
  decide!

/-- Witness for C2: the 3 × 3 grid with a static obstacle at `(2,2)`, together
    with the two scenarios evaluated (8 cells around the obstacle; column 1
    only behind the wall). -/
theorem C2_sweep_is_region_of_start_witness :
    (∃ fuel s', cleaningDFS (fun _ => 0) fuel centreBlocked 1 1 1 = some s' ∧
      (∀ p, p ∈ marks (runTrace centreBlocked s') ↔ Joined centreBlocked (1, 1) p) ∧
      (marks (runTrace centreBlocked s')).Nodup ∧
      s'.cleaned_count = ((Set.ncard {p | Joined centreBlocked (1, 1) p} : Nat) : Int) ∧
      (∀ p, Joined centreBlocked (1, 1) p → s'.map p.1 p.2 ≠ 0) ∧
      (∀ p, ¬ Joined centreBlocked (1, 1) p →
        (centreBlocked.map p.1 p.2 = 0 ∨ centreBlocked.map p.1 p.2 = -1) →
        s'.map p.1 p.2 = centreBlocked.map p.1 p.2)) ∧
    (cleaningDFS (fun _ => 0) 9 centreBlocked 1 1 1).map
      (fun s' => (marks (runTrace centreBlocked s'), s'.cleaned_count,
        s'.rows * s'.cols - (s'.obstacles.length : Int))) =
      some ([(1, 1), (1, 2), (1, 3), (2, 3), (3, 3), (3, 2), (3, 1), (2, 1)], 8, 8) ∧
    (cleaningDFS (fun _ => 0) 9 walled 1 1 1).map
      (fun s' => (marks (runTrace walled s'), s'.cleaned_count,
        s'.rows * s'.cols - (s'.obstacles.length : Int),
        s'.map 1 3, s'.map 2 3, s'.map 3 3)) =
      some ([(1, 1), (2, 1), (3, 1)], 3, 6, 0, 0, 0) :=
  ⟨C2_sweep_is_region_of_start (fun _ => 0) centreBlocked (by decide) rfl,
    scenario_centre_blocked, scenario_walled⟩

/-- C3 (as amended): with no mobile obstacle, for every grid, `cleaningDFS(1,1,1)`
    returns and leaves no free cell (in bounds, holding 0) next to a cell it
    marked. -/
theorem C3_no_free_neighbour_without_mobile (rnd : Nat → Nat) (s : State)
    (hdyn : s.dynamicObstacles = []) :
    ∃ fuel s', cleaningDFS rnd fuel s 1 1 1 = some s' ∧ NoFreeNeighbour s s' := by
  obtain ⟨fuel, s', hrun, _, _, _, _, _, hnf⟩ := sweep_from_start rnd s hdyn
  exact ⟨fuel, s', hrun, hnf⟩

/-- Witness for C3: the empty 2 × 2 grid. -/
theorem C3_no_free_neighbour_without_mobile_witness :
    ∃ fuel s', cleaningDFS (fun _ => 0) fuel (emptyState 2 2) 1 1 1 = some s' ∧
      NoFreeNeighbour (emptyState 2 2) s' :=
  C3_no_free_neighbour_without_mobile (fun _ => 0) (emptyState 2 2) rfl

set_option maxRecDepth 100000 in
/-- C3 fails with a mobile obstacle: on the 2 × 2 grid with a mobile obstacle
    at `(1,2)` the run marks `(1,1)` and `(2,1)`; the obstacle leaves `(1,2)`
    after the call for `(1,2)` was rejected, so `(1,2)` ends free next to the
    marked cell `(1,1)`. -/
theorem C3_counterexample :
    ∃ s', cleaningDFS rndC3 3 stateC3 1 1 1 = some s' ∧
      marks (runTrace stateC3 s') ≠ [] ∧ ¬ NoFreeNeighbour stateC3 s' := by
  have h : (cleaningDFS rndC3 3 stateC3 1 1 1).map
      (fun s' => (marks (runTrace stateC3 s'), decide (free s' (1, 2)))) =
      some ([(1, 1), (2, 1)], true) := by decide!
  obtain ⟨s', hrun, hs⟩ := exists_of_map_eq_some _ _ _ h
  have hm : marks (runTrace stateC3 s') = [(1, 1), (2, 1)] := congrArg Prod.fst hs
  have hf : free s' (1, 2) := of_decide_eq_true (congrArg Prod.snd hs)
  refine ⟨s', hrun, ?_, ?_⟩
  · rw [hm]; exact List.cons_ne_nil _ _
  · intro hno
    exact hno (1, 1) (by rw [hm]; exact List.mem_cons_self _ _) (1, 2) (Or.inl rfl) hf

/-! ## Mobile obstacles standing on cells of their own -/

theorem shift_refl (m : Grid) : Shift m m := fun _ _ => Or.inl rfl

theorem shift_trans {m1 m2 m3 : Grid} (h12 : Shift m1 m2) (h23 : Shift m2 m3) : Shift m1 m3 := by
  intro i j
  rcases h12 i j with a | a | a <;> rcases h23 i j with b | b | b <;> omega

theorem positions_append (a b : List DynamicObstacle) :
    positions (a ++ b) = positions a ++ positions b := by
  simp [positions]

theorem positions_cons (o : DynamicObstacle) (l : List DynamicObstacle) :
    positions (o :: l) = (o.x, o.y) :: positions l := rfl

theorem mem_positions {p : Int × Int} {l : List DynamicObstacle} :
    p ∈ positions l ↔ ∃ o ∈ l, (o.x, o.y) = p := by
  simp [positions]

/-- A property of the grid and the obstacle list kept by every single obstacle
    step is kept by the whole loop of `updateDynamicObstacles`. -/
theorem moveAll_invariant (rnd : Nat → Nat) (rows cols : Int)
    (I : Grid → List DynamicObstacle → Prop)
    (hstep : ∀ m done o rest d, I m (done ++ o :: rest) →
      I (moveObstacle rows cols m o d).1 (done ++ (moveObstacle rows cols m o d).2.1 :: rest)) :
    ∀ (rest done : List DynamicObstacle) (m : Grid) (k : Nat), I m (done ++ rest) →
      I (moveAll rnd rows cols rest m k).1 (done ++ (moveAll rnd rows cols rest m k).2.1) := by
  intro rest
  induction rest with
  | nil => intro done m k h; simpa [moveAll] using h
  | cons o rest ih =>
    intro done m k h
    have h1 := hstep m done o rest (rnd k % 4) h
    have h2 := ih (done ++ [(moveObstacle rows cols m o (rnd k % 4)).2.1])
      (moveObstacle rows cols m o (rnd k % 4)).1 (k + 1)
      (by simpa [List.append_assoc] using h1)
    simpa [moveAll, List.append_assoc] using h2

/-- One obstacle step keeps the obstacles on cells of their own, keeps every
    -1 accounted for, and only exchanges a -1 and a 0. -/
theorem moveObstacle_placed (rows cols : Int) (fixed : Set (Int × Int)) (m0 m : Grid)
    (done : List DynamicObstacle) (o : DynamicObstacle) (rest : List DynamicObstacle) (d : Nat)
    (h : Placed m (done ++ o :: rest) ∧ Covered m (done ++ o :: rest) fixed ∧
      (∀ p ∈ fixed, m p.1 p.2 = -1 ∧ p ∉ positions (done ++ o :: rest)) ∧ Shift m0 m) :
    Placed (moveObstacle rows cols m o d).1 (done ++ (moveObstacle rows cols m o d).2.1 :: rest) ∧
    Covered (moveObstacle rows cols m o d).1
      (done ++ (moveObstacle rows cols m o d).2.1 :: rest) fixed ∧
    (∀ p ∈ fixed, (moveObstacle rows cols m o d).1 p.1 p.2 = -1 ∧
      p ∉ positions (done ++ (moveObstacle rows cols m o d).2.1 :: rest)) ∧
    Shift m0 (moveObstacle rows cols m o d).1 := by
  obtain ⟨⟨hnd, hneg⟩, hcov, hfix, hsh⟩ := h
  rcases moveObstacle_cases rows cols m o d with ⟨e, _⟩ | ⟨⟨_, hz⟩, e⟩
  · rw [e]; exact ⟨⟨hnd, hneg⟩, hcov, hfix, hsh⟩
  · rw [e]
    simp only
    generalize hp : destination o d = p at hz
    have ho : m o.x o.y = -1 := hneg o (by simp)
    have hpo : ¬ (p.1 = o.x ∧ p.2 = o.y) := by
      rintro ⟨h1, h2⟩
      rw [h1, h2, ho] at hz
      omega
    have hother : ∀ o2, o2 ∈ done ∨ o2 ∈ rest → ¬ (o2.x = p.1 ∧ o2.y = p.2) ∧
        ¬ (o2.x = o.x ∧ o2.y = o.y) := by
      intro o2 h2
      have hm2 : m o2.x o2.y = -1 := hneg o2 (by
        rcases h2 with h2 | h2
        · exact List.mem_append_left _ h2
        · exact List.mem_append_right _ (List.mem_cons_of_mem _ h2))
      refine ⟨?_, ?_⟩
      · rintro ⟨h1, h3⟩
        rw [h1, h3, hz] at hm2
        omega
      · rintro ⟨h1, h3⟩
        rw [positions_append, positions_cons] at hnd
        have hmid := (List.nodup_middle.1 hnd)
        rw [List.nodup_cons] at hmid
        apply hmid.1
        rw [List.mem_append]
        rcases h2 with h2 | h2
        · left; exact mem_positions.2 ⟨o2, h2, by rw [h1, h3]⟩
        · right; exact mem_positions.2 ⟨o2, h2, by rw [h1, h3]⟩
    have hnew : ∀ i j, ¬ (i = p.1 ∧ j = p.2) → ¬ (i = o.x ∧ j = o.y) →
        setCell (setCell m o.x o.y 0) p.1 p.2 (-1) i j = m i j := by
      intro i j h1 h2
      rw [setCell_other _ _ _ _ _ _ h1, setCell_other _ _ _ _ _ _ h2]
    refine ⟨⟨?_, ?_⟩, ?_, ?_, ?_⟩
    · rw [positions_append, positions_cons] at hnd ⊢
      rw [List.nodup_middle] at hnd ⊢
      rw [List.nodup_cons] at hnd ⊢
      refine ⟨?_, hnd.2⟩
      intro hmem
      rw [List.mem_append] at hmem
      rcases hmem with hmem | hmem
      · obtain ⟨o2, ho2, e2⟩ := mem_positions.1 hmem
        exact (hother o2 (Or.inl ho2)).1 ⟨congrArg Prod.fst e2, congrArg Prod.snd e2⟩
      · obtain ⟨o2, ho2, e2⟩ := mem_positions.1 hmem
        exact (hother o2 (Or.inr ho2)).1 ⟨congrArg Prod.fst e2, congrArg Prod.snd e2⟩
    · intro o2 ho2
      rw [List.mem_append, List.mem_cons] at ho2
      have hcase : o2 = ⟨p.1, p.2⟩ ∨ (o2 ∈ done ∨ o2 ∈ rest) := by
        rcases ho2 with h1 | h1 | h1
        · exact Or.inr (Or.inl h1)
        · exact Or.inl h1
        · exact Or.inr (Or.inr h1)
      rcases hcase with h1 | h1
      · rw [h1]; exact setCell_same _ _ _ _
      · rw [hnew _ _ (hother o2 h1).1 (hother o2 h1).2]
        exact hneg o2 (by
          rcases h1 with h1 | h1
          · exact List.mem_append_left _ h1
          · exact List.mem_append_right _ (List.mem_cons_of_mem _ h1))
    · intro i j hij
      by_cases h1 : i = p.1 ∧ j = p.2
      · left
        rw [positions_append, positions_cons, List.mem_append, List.mem_cons]
        right; left
        exact Prod.ext h1.1 h1.2
      · by_cases h2 : i = o.x ∧ j = o.y
        · rw [setCell_other _ _ _ _ _ _ h1, h2.1, h2.2, setCell_same] at hij
          omega
        · rw [hnew i j h1 h2] at hij
          rcases hcov i j hij with h3 | h3
          · left
            rw [positions_append, positions_cons, List.mem_append, List.mem_cons] at h3 ⊢
            rcases h3 with h3 | h3 | h3
            · exact Or.inl h3
            · exact absurd ⟨congrArg Prod.fst h3, congrArg Prod.snd h3⟩ h2
            · exact Or.inr (Or.inr h3)
          · exact Or.inr h3
    · intro q hq
      obtain ⟨hq1, hq2⟩ := hfix q hq
      have hqp : ¬ (q.1 = p.1 ∧ q.2 = p.2) := by
        rintro ⟨h1, h2⟩
        rw [h1, h2, hz] at hq1
        omega
      have hqo : ¬ (q.1 = o.x ∧ q.2 = o.y) := by
        rintro ⟨h1, h2⟩
        apply hq2
        rw [positions_append, positions_cons, List.mem_append, List.mem_cons]
        right; left
        exact Prod.ext h1 h2
      refine ⟨by rw [hnew _ _ hqp hqo]; exact hq1, ?_⟩
      rw [positions_append, positions_cons, List.mem_append, List.mem_cons] at hq2 ⊢
      rintro (h1 | h1 | h1)
      · exact hq2 (Or.inl h1)
      · exact hqp ⟨congrArg Prod.fst h1, congrArg Prod.snd h1⟩
      · exact hq2 (Or.inr (Or.inr h1))
    · refine shift_trans hsh ?_
      intro i j
      by_cases h1 : i = p.1 ∧ j = p.2
      · right; right
        rw [h1.1, h1.2, setCell_same]
        exact ⟨hz, rfl⟩
      · by_cases h2 : i = o.x ∧ j = o.y
        · right; left
          rw [setCell_other _ _ _ _ _ _ h1, h2.1, h2.2, setCell_same]
          exact ⟨ho, rfl⟩
        · left; exact hnew i j h1 h2

theorem tidy_of_same_obstacle_cells {fixed : Set (Int × Int)} {m m' : Grid}
    {l : List DynamicObstacle} (h : ∀ i j, m' i j = -1 ↔ m i j = -1) (ht : Tidy fixed m l) :
    Tidy fixed m' l := by
  obtain ⟨⟨hnd, hneg⟩, hcov, hfix⟩ := ht
  refine ⟨⟨hnd, fun o ho => (h _ _).2 (hneg o ho)⟩, ?_, ?_⟩
  · intro i j hij; exact hcov i j ((h i j).1 hij)
  · intro p hp; exact ⟨(h _ _).2 (hfix p hp).1, (hfix p hp).2⟩

/-- The loop of `updateDynamicObstacles` keeps the bookkeeping consistent and
    only exchanges -1 and 0 cells. -/
theorem moveAll_tidy (rnd : Nat → Nat) (rows cols : Int) (fixed : Set (Int × Int))
    (m : Grid) (l : List DynamicObstacle) (k : Nat) (h : Tidy fixed m l) :
    Tidy fixed (moveAll rnd rows cols l m k).1 (moveAll rnd rows cols l m k).2.1 ∧
      Shift m (moveAll rnd rows cols l m k).1 := by
  have key := moveAll_invariant rnd rows cols
    (fun g t => Placed g t ∧ Covered g t fixed ∧
      (∀ p ∈ fixed, g p.1 p.2 = -1 ∧ p ∉ positions t) ∧ Shift m g)
    (fun g done o rest d hI => moveObstacle_placed rows cols fixed m g done o rest d hI)
    l [] m k ⟨h.1, h.2.1, h.2.2, shift_refl m⟩
  simp only [List.nil_append] at key
  exact ⟨⟨key.1, key.2.1, key.2.2.1⟩, key.2.2.2⟩

theorem updateMap_map_eq_neg_one (s : State) (i j : Int) :
    (updateMap s).map i j = -1 ↔ s.map i j = -1 := by
  simp only [updateMap]
  by_cases h : inArray i j ∧ isTag (s.map i j)
  · rw [if_pos h]
    have := isTag_ne_neg_one h.2
    constructor
    · intro h5; omega
    · intro h0; exact absurd h0 this
  · rw [if_neg h]

theorem swept_updateMap (s : State) (p : Int × Int) (h : swept s.map p) :
    swept (updateMap s).map p := by
  unfold swept at *
  refine ⟨fun h0 => h.1 ((updateMap_map_eq_zero s _ _).1 h0),
    fun h1 => h.2 ((updateMap_map_eq_neg_one s _ _).1 h1)⟩

theorem swept_of_shift {m m' : Grid} (hs : Shift m m') (p : Int × Int) (h : swept m p) :
    swept m' p := by
  unfold swept at *
  rcases hs p.1 p.2 with e | e | e <;> omega

/-- State after a visit when the bookkeeping is consistent: it stays
    consistent and every cell swept so far, the new one included, stays swept. -/
theorem afterVisit_tidy (rnd : Nat → Nat) (fixed : Set (Int × Int)) (s : State)
    (x y d : Int) (he : enters s x y) (hd : isTag d)
    (ht : Tidy fixed s.map s.dynamicObstacles) :
    Tidy fixed (afterVisit rnd s x y d).map (afterVisit rnd s x y d).dynamicObstacles ∧
      swept (afterVisit rnd s x y d).map (x, y) ∧
      ∀ p, swept s.map p → swept (afterVisit rnd s x y d).map p := by
  have hz : s.map x y = 0 := he.2.2.2.2
  have h1 : Tidy fixed (setCell s.map x y d) s.dynamicObstacles := by
    apply tidy_of_same_obstacle_cells _ ht
    intro i j
    by_cases hc : i = x ∧ j = y
    · rw [hc.1, hc.2, setCell_same, hz]
      have := isTag_ne_neg_one hd
      constructor <;> intro h <;> omega
    · rw [setCell_other _ _ _ _ _ _ hc]
  obtain ⟨h2, hsh⟩ := moveAll_tidy rnd s.rows s.cols fixed (setCell s.map x y d)
    s.dynamicObstacles s.randCalls h1
  have hmid : ∀ p, swept (setCell s.map x y d) p →
      swept (afterVisit rnd s x y d).map p := by
    intro p hp
    exact swept_updateMap (updateDynamicObstacles rnd (markCell s x y d)) p
      (swept_of_shift hsh p hp)
  refine ⟨?_, ?_, ?_⟩
  · exact tidy_of_same_obstacle_cells
      (updateMap_map_eq_neg_one (updateDynamicObstacles rnd (markCell s x y d))) h2
  · apply hmid
    unfold swept
    rw [setCell_same]
    exact ⟨isTag_ne_zero hd, isTag_ne_neg_one hd⟩
  · intro p hp
    apply hmid
    have hne : ¬ (p.1 = x ∧ p.2 = y) := by
      rintro ⟨e1, e2⟩
      apply hp.1
      rw [e1, e2]; exact hz
    unfold swept
    rw [setCell_other _ _ _ _ _ _ hne]
    exact hp

theorem distinct_refl (fixed : Set (Int × Int)) (s : State)
    (h : Tidy fixed s.map s.dynamicObstacles) : Distinct fixed s s :=
  ⟨h, fun _ hp => hp, [], by simp, by simp [marks], (fun p hp => by simp [marks] at hp),
    by simp [marks]⟩

theorem distinct_trans {fixed : Set (Int × Int)} {s1 s2 s3 : State}
    (h12 : Distinct fixed s1 s2) (h23 : Distinct fixed s2 s3) : Distinct fixed s1 s3 := by
  obtain ⟨_, k12, t12, e12, n12, m12, c12⟩ := h12
  obtain ⟨T3, k23, t23, e23, n23, m23, c23⟩ := h23
  refine ⟨T3, fun p hp => k23 p (k12 p hp), t12 ++ t23, ?_, ?_, ?_, ?_⟩
  · rw [e23, e12, List.append_assoc]
  · rw [marks_append, List.nodup_append]
    refine ⟨n12, n23, ?_⟩
    intro p hp1 hp2
    exact (m23 p hp2).2 (m12 p hp1).1
  · intro p hp
    rw [marks_append, List.mem_append] at hp
    rcases hp with hp | hp
    · exact ⟨k23 p (m12 p hp).1, (m12 p hp).2⟩
    · exact ⟨(m23 p hp).1, fun h => (m23 p hp).2 (k12 p h)⟩
  · rw [c23, c12, marks_append, List.length_append]
    push_cast
    ring

theorem distinct_afterVisit (rnd : Nat → Nat) (fixed : Set (Int × Int)) (s : State)
    (x y d : Int) (he : enters s x y) (hd : isTag d)
    (ht : Tidy fixed s.map s.dynamicObstacles) : Distinct fixed s (afterVisit rnd s x y d) := by
  obtain ⟨t3, hxy, hkeep⟩ := afterVisit_tidy rnd fixed s x y d he hd ht
  obtain ⟨t, et, hmt, _⟩ := afterVisit_trace rnd s x y d
  refine ⟨t3, hkeep, _, et, ?_, ?_, ?_⟩
  · rw [marks_mark_cons, hmt]; exact List.nodup_singleton _
  · intro p hp
    rw [marks_mark_cons, hmt, List.mem_singleton] at hp
    rw [hp]
    exact ⟨hxy, fun h => h.1 he.2.2.2.2⟩
  · rw [marks_mark_cons, hmt, afterVisit_count]
    simp

theorem cleaningDFS_distinctCall (rnd : Nat → Nat) (fixed : Set (Int × Int)) (fuel : Nat)
    (s : State) (x y d : Int) (s' : State) (h : cleaningDFS rnd fuel s x y d = some s') :
    DistinctCall fixed s x y d s' := by
  refine cleaningDFS_induct rnd (DistinctCall fixed) ?_ ?_ fuel s x y d s' h
  · intro s x y d _ _ ht
    exact distinct_refl fixed s ht
  · intro s x y d s4 s5 s6 s7 he h4 h5 h6 h7 hd ht
    have D3 := distinct_afterVisit rnd fixed s x y d he hd ht
    have D4 := h4 isTag_one D3.1
    have D5 := h5 isTag_two D4.1
    have D6 := h6 isTag_three D5.1
    have D7 := h7 isTag_four D6.1
    exact distinct_trans D3 (distinct_trans D4 (distinct_trans D5 (distinct_trans D6 D7)))

/-- When the mobile obstacles stand on cells of their own holding -1, the
    bookkeeping is consistent with respect to the other cells holding -1. -/
theorem tidy_of_placed (m : Grid) (l : List DynamicObstacle) (h : Placed m l) :
    Tidy {p | m p.1 p.2 = -1 ∧ p ∉ positions l} m l := by
  refine ⟨h, ?_, fun p hp => hp⟩
  intro i j hij
  by_cases hm : (i, j) ∈ positions l
  · exact Or.inl hm
  · exact Or.inr ⟨hij, hm⟩

/-- Summary of a run of `cleaningDFS(1,1,1)` from a state whose mobile
    obstacles stand on cells of their own holding -1. -/
theorem distinct_from_start (rnd : Nat → Nat) (s : State)
    (hp : Placed s.map s.dynamicObstacles) (fuel : Nat) (s' : State)
    (hrun : cleaningDFS rnd fuel s 1 1 1 = some s') :
    Placed s'.map s'.dynamicObstacles ∧ (marks (runTrace s s')).Nodup ∧
      (∀ p, swept s.map p → swept s'.map p) ∧
      (∀ p ∈ marks (runTrace s s'), swept s'.map p) ∧
      s'.cleaned_count = s.cleaned_count + ((marks (runTrace s s')).length : Int) := by
  obtain ⟨T, hk, t, et, hn, hm, hc⟩ :=
    cleaningDFS_distinctCall rnd _ fuel s 1 1 1 s' hrun isTag_one (tidy_of_placed _ _ hp)
  rw [runTrace_of_append s s' t et]
  exact ⟨T.1, hn, hk, fun p hp' => (hm p hp').1, hc⟩

theorem addObstacle_fields (rnd : Nat → Nat) (s : State) (x y : Int) :
    (addObstacle rnd s x y).rows = s.rows ∧ (addObstacle rnd s x y).cols = s.cols ∧
      (addObstacle rnd s x y).cleaned_count = s.cleaned_count ∧
      (addObstacle rnd s x y).trace = s.trace := by
  unfold addObstacle
  split
  · split <;> exact ⟨rfl, rfl, rfl, rfl⟩
  · exact ⟨rfl, rfl, rfl, rfl⟩

theorem setupObstacles_fields (rnd : Nat → Nat) (coords : List (Int × Int)) :
    ∀ s : State, (setupObstacles rnd s coords).rows = s.rows ∧
      (setupObstacles rnd s coords).cols = s.cols ∧
      (setupObstacles rnd s coords).cleaned_count = s.cleaned_count ∧
      (setupObstacles rnd s coords).trace = s.trace := by
  induction coords with
  | nil => intro s; exact ⟨rfl, rfl, rfl, rfl⟩
  | cons c rest ih =>
    intro s
    obtain ⟨h1, h2, h3, h4⟩ := ih (addObstacle rnd s c.1 c.2)
    obtain ⟨g1, g2, g3, g4⟩ := addObstacle_fields rnd s c.1 c.2
    exact ⟨h1.trans g1, h2.trans g2, h3.trans g3, h4.trans g4⟩

/-- Adding an obstacle at a coordinate not yet recorded keeps grid and lists in
    agreement; the recorded coordinates grow by at most that coordinate. -/
theorem addObstacle_recorded (rnd : Nat → Nat) (s : State) (x y : Int) (h : Recorded s)
    (hnew : (x, y) ∉ s.obstacles) :
    Recorded (addObstacle rnd s x y) ∧
      ∀ p ∈ (addObstacle rnd s x y).obstacles, p = (x, y) ∨ p ∈ s.obstacles := by
  obtain ⟨⟨hnd, hneg⟩, hmap, hpos⟩ := h
  have hcell : ∀ i j, setCell s.map x y (-1) i j = -1 ↔ (i, j) ∈ s.obstacles ++ [(x, y)] := by
    intro i j
    rw [List.mem_append, List.mem_singleton]
    by_cases hc : i = x ∧ j = y
    · rw [hc.1, hc.2, setCell_same]
      exact ⟨fun _ => Or.inr rfl, fun _ => rfl⟩
    · rw [setCell_other _ _ _ _ _ _ hc, hmap]
      constructor
      · intro h'; exact Or.inl h'
      · rintro (h' | h')
        · exact h'
        · exact absurd ⟨congrArg Prod.fst h', congrArg Prod.snd h'⟩ hc
  have hkeep : ∀ o ∈ s.dynamicObstacles, setCell s.map x y (-1) o.x o.y = -1 := by
    intro o ho
    rw [hcell]
    exact List.mem_append_left _ (hpos _ (mem_positions.2 ⟨o, ho, rfl⟩))
  have hsub : ∀ p ∈ s.obstacles ++ [(x, y)], p = (x, y) ∨ p ∈ s.obstacles := by
    intro p hp
    rw [List.mem_append, List.mem_singleton] at hp
    exact hp.symm
  unfold addObstacle
  split
  · split
    · refine ⟨⟨⟨?_, ?_⟩, hcell, ?_⟩, hsub⟩
      · show (positions (s.dynamicObstacles ++ [⟨x, y⟩])).Nodup
        rw [positions_append, List.nodup_append]
        refine ⟨hnd, List.nodup_singleton _, ?_⟩
        intro p hp1 hp2
        rw [positions_cons, List.mem_cons] at hp2
        rcases hp2 with hp2 | hp2
        · rw [hp2] at hp1; exact hnew (hpos _ hp1)
        · cases hp2
      · intro o ho
        show setCell s.map x y (-1) o.x o.y = -1
        have ho' : o ∈ s.dynamicObstacles ++ [⟨x, y⟩] := ho
        rw [List.mem_append, List.mem_singleton] at ho'
        rcases ho' with ho' | ho'
        · exact hkeep o ho'
        · rw [ho']; exact setCell_same _ _ _ _
      · intro p hp
        have hp' : p ∈ positions (s.dynamicObstacles ++ [⟨x, y⟩]) := hp
        show p ∈ s.obstacles ++ [(x, y)]
        rw [positions_append, List.mem_append] at hp'
        rcases hp' with hp' | hp'
        · exact List.mem_append_left _ (hpos _ hp')
        · rw [positions_cons, List.mem_cons] at hp'
          rcases hp' with hp' | hp'
          · rw [hp']; exact List.mem_append_right _ (List.mem_singleton.2 rfl)
          · cases hp'
    · refine ⟨⟨⟨hnd, hkeep⟩, hcell, ?_⟩, hsub⟩
      intro p hp
      exact List.mem_append_left _ (hpos _ hp)
  · exact ⟨⟨⟨hnd, hneg⟩, hmap, hpos⟩, fun p hp => Or.inr hp⟩

theorem setupObstacles_recorded (rnd : Nat → Nat) (coords : List (Int × Int)) :
    ∀ s : State, coords.Nodup → (∀ p ∈ coords, p ∉ s.obstacles) → Recorded s →
      Recorded (setupObstacles rnd s coords) := by
  induction coords with
  | nil => intro s _ _ h; exact h
  | cons c rest ih =>
    intro s hnd hfresh h
    rw [List.nodup_cons] at hnd
    obtain ⟨h1, hsub⟩ := addObstacle_recorded rnd s c.1 c.2 h (hfresh c (List.mem_cons_self _ _))
    apply ih _ hnd.2 _ h1
    intro p hp hmem
    rcases hsub p hmem with e | e
    · rw [e] at hp; exact hnd.1 hp
    · exact hfresh p (List.mem_cons_of_mem _ hp) e

theorem recorded_emptyState (r c : Int) : Recorded (emptyState r c) := by
  refine ⟨⟨List.nodup_nil, fun o ho => by cases ho⟩, ?_, fun p hp => by cases hp⟩
  intro i j
  constructor
  · intro h
    have : (0 : Int) = -1 := h
    omega
  · intro h; cases h

theorem mem_staticOnly (s : State) (p : Int × Int) :
    p ∈ staticOnly s ↔ p ∈ s.obstacles ∧ p ∉ positions s.dynamicObstacles := by
  simp [staticOnly, List.mem_filter]

theorem tidy_of_recorded (s : State) (h : Recorded s) :
    Tidy {p | p ∈ staticOnly s} s.map s.dynamicObstacles := by
  obtain ⟨hp, hmap, _⟩ := h
  refine ⟨hp, ?_, ?_⟩
  · intro i j hij
    by_cases hm : (i, j) ∈ positions s.dynamicObstacles
    · exact Or.inl hm
    · exact Or.inr ((mem_staticOnly s _).2 ⟨(hmap i j).1 hij, hm⟩)
  · intro p hp'
    have hp'' : p ∈ staticOnly s := hp'
    rw [mem_staticOnly] at hp''
    exact ⟨(hmap _ _).2 hp''.1, hp''.2⟩

/-- Obstacles typed in at pairwise distinct coordinates on an all-zero grid give
    a consistent bookkeeping. -/
theorem setup_tidy (rnd : Nat → Nat) (r c : Int) (coords : List (Int × Int))
    (hnd : coords.Nodup) :
    Tidy {p | p ∈ staticOnly (setupObstacles rnd (emptyState r c) coords)}
      (setupObstacles rnd (emptyState r c) coords).map
      (setupObstacles rnd (emptyState r c) coords).dynamicObstacles :=
  tidy_of_recorded _ (setupObstacles_recorded rnd coords (emptyState r c) hnd
    (fun _ _ h => by cases h) (recorded_emptyState r c))

/-! ## C4, C5: marks and obstacle markers under `setupObstacles` -/

/-- C4 (as amended): when the obstacles are typed in at pairwise distinct
    coordinates on an all-zero grid (any coin flips, any later direction
    draws), the run of `cleaningDFS(1,1,1)` returns, marks no cell twice, and
    `cleaned_count` ends equal to the number of distinct cells marked. -/
theorem C4_distinct_obstacles_marked_once (rnd : Nat → Nat) (r c : Int)
    (coords : List (Int × Int)) (hnd : coords.Nodup) :
    ∃ fuel s', cleaningDFS rnd fuel (setupObstacles rnd (emptyState r c) coords) 1 1 1 = some s' ∧
      (marks (runTrace (setupObstacles rnd (emptyState r c) coords) s')).Nodup ∧
      s'.cleaned_count =
        ((marks (runTrace (setupObstacles rnd (emptyState r c) coords) s')).toFinset.card : Int) := by
  obtain ⟨_, _, hcount, _⟩ := setupObstacles_fields rnd coords (emptyState r c)
  generalize hs0 : setupObstacles rnd (emptyState r c) coords = s0 at hcount
  have hplaced : Placed s0.map s0.dynamicObstacles := by
    rw [← hs0]; exact (setup_tidy rnd r c coords hnd).1
  have hc0 : s0.cleaned_count = 0 := hcount
  obtain ⟨s', hrun⟩ := cleaningDFS_returns rnd (freeCount s0 + 1) s0 1 1 1 isTag_one
    (Nat.lt_succ_self _)
  obtain ⟨_, hN, _, _, hC⟩ := distinct_from_start rnd s0 hplaced _ s' hrun
  refine ⟨_, s', hrun, hN, ?_⟩
  rw [List.toFinset_card_of_nodup hN, hC, hc0]
  simp

/-- Witness for C4: one mobile obstacle at `(2,2)` of the 3 × 3 grid. -/
theorem C4_distinct_obstacles_marked_once_witness :
    ∃ fuel s', cleaningDFS (fun _ => 0) fuel
        (setupObstacles (fun _ => 0) (emptyState 3 3) [(2, 2)]) 1 1 1 = some s' ∧
      (marks (runTrace (setupObstacles (fun _ => 0) (emptyState 3 3) [(2, 2)]) s')).Nodup ∧
      s'.cleaned_count =
        ((marks (runTrace (setupObstacles (fun _ => 0) (emptyState 3 3) [(2, 2)]) s')).toFinset.card
          : Int) :=
  C4_distinct_obstacles_marked_once (fun _ => 0) 3 3 [(2, 2)] (List.nodup_singleton _)

set_option maxRecDepth 100000 in
/-- Run on the 2 × 3 grid with two mobile obstacles recorded at `(1,2)`: the
    cells marked, in order, and the final counter. -/
theorem twin_obstacles_run :
    (cleaningDFS rndC4 6 stateC4 1 1 1).map
      (fun s' => (marks (runTrace stateC4 s'), s'.cleaned_count)) =
      some ([(1, 1), (1, 2), (1, 3), (2, 3), (1, 2)], 5) := by
  decide!

/-- C4 fails when a coordinate is typed in twice: with two mobile obstacles
    recorded at `(1,2)` of the 2 × 3 grid, the first leaves, the robot marks
    `(1,2)`, the second leaves and resets `(1,2)` to 0, and the robot marks
    `(1,2)` again: 5 marks on 4 distinct cells. -/
theorem C4_counterexample :
    ∃ s', cleaningDFS rndC4 6 stateC4 1 1 1 = some s' ∧
      ¬ (marks (runTrace stateC4 s')).Nodup ∧
      s'.cleaned_count ≠ ((marks (runTrace stateC4 s')).toFinset.card : Int) := by
  obtain ⟨s', hrun, hs⟩ := exists_of_map_eq_some _ _ _ twin_obstacles_run
  have hm : marks (runTrace stateC4 s') = [(1, 1), (1, 2), (1, 3), (2, 3), (1, 2)] :=
    congrArg Prod.fst hs
  have hc : s'.cleaned_count = 5 := congrArg Prod.snd hs
  refine ⟨s', hrun, ?_, ?_⟩
  · rw [hm]; decide
  · rw [hm, hc]; decide

theorem afterMoves_tidy (rnd : Nat → Nat) (fixed : Set (Int × Int)) (s : State)
    (h : Tidy fixed s.map s.dynamicObstacles) :
    ∀ n, Tidy fixed (afterMoves rnd n s).map (afterMoves rnd n s).dynamicObstacles := by
  intro n
  induction n with
  | zero => exact h
  | succ n ih =>
    have e : afterMoves rnd (n + 1) s = updateDynamicObstacles rnd (afterMoves rnd n s) := by
      unfold afterMoves
      rw [Function.iterate_succ_apply']
    rw [e]
    exact (moveAll_tidy rnd _ _ fixed _ _ _ ih).1

/-- C5 (as amended): when the obstacles are typed in at pairwise distinct
    coordinates on an all-zero grid (any coin flips), after any number of calls
    of `updateDynamicObstacles` with any direction draws, every mobile obstacle
    stands on a cell holding -1, no two mobile obstacles share a cell, and
    every cell holding -1 carries a mobile obstacle or is the coordinate of a
    recorded obstacle that was not made mobile. -/
theorem C5_distinct_obstacles_stay_marked (rnd : Nat → Nat) (r c : Int)
    (coords : List (Int × Int)) (hnd : coords.Nodup) (n : Nat) :
    (∀ o ∈ (afterMoves rnd n (setupObstacles rnd (emptyState r c) coords)).dynamicObstacles,
      (afterMoves rnd n (setupObstacles rnd (emptyState r c) coords)).map o.x o.y = -1) ∧
    (positions
      (afterMoves rnd n (setupObstacles rnd (emptyState r c) coords)).dynamicObstacles).Nodup ∧
    (∀ i j, (afterMoves rnd n (setupObstacles rnd (emptyState r c) coords)).map i j = -1 →
      (i, j) ∈ positions
        (afterMoves rnd n (setupObstacles rnd (emptyState r c) coords)).dynamicObstacles ∨
      (i, j) ∈ staticOnly (setupObstacles rnd (emptyState r c) coords)) := by
  obtain ⟨⟨h1, h2⟩, h3, _⟩ := afterMoves_tidy rnd _ _ (setup_tidy rnd r c coords hnd) n
  exact ⟨h2, h1, h3⟩

/-- Witness for C5: obstacles typed in at `(1,1)` and `(2,2)` of the 3 × 3 grid,
    two motion steps. -/
theorem C5_distinct_obstacles_stay_marked_witness :
    (∀ o ∈ (afterMoves (fun k => k) 2
        (setupObstacles (fun k => k) (emptyState 3 3) [(1, 1), (2, 2)])).dynamicObstacles,
      (afterMoves (fun k => k) 2
        (setupObstacles (fun k => k) (emptyState 3 3) [(1, 1), (2, 2)])).map o.x o.y = -1) ∧
    (positions (afterMoves (fun k => k) 2
      (setupObstacles (fun k => k) (emptyState 3 3) [(1, 1), (2, 2)])).dynamicObstacles).Nodup ∧
    (∀ i j, (afterMoves (fun k => k) 2
        (setupObstacles (fun k => k) (emptyState 3 3) [(1, 1), (2, 2)])).map i j = -1 →
      (i, j) ∈ positions (afterMoves (fun k => k) 2
        (setupObstacles (fun k => k) (emptyState 3 3) [(1, 1), (2, 2)])).dynamicObstacles ∨
      (i, j) ∈ staticOnly (setupObstacles (fun k => k) (emptyState 3 3) [(1, 1), (2, 2)])) :=
  C5_distinct_obstacles_stay_marked (fun k => k) 3 3 [(1, 1), (2, 2)] (by decide) 2

/-- C5 fails when a coordinate is typed in twice: after one motion step the
    first obstacle has moved to `(1,2)` and reset `(1,1)` to 0, while the second
    obstacle is still recorded at `(1,1)`. -/
theorem C5_counterexample :
    ∃ o ∈ (afterMoves rndC5 1 stateC5).dynamicObstacles,
      (afterMoves rndC5 1 stateC5).map o.x o.y ≠ -1 :=
  ⟨⟨1, 1⟩, by decide, by decide⟩

/-! ## C6: one step of an obstacle -/

/-- C6: in the loop body of `updateDynamicObstacles`, for an obstacle at
    `(o.x, o.y)` and a drawn direction `d` (0 right, 1 down, 2 left, 3 up) with
    destination `(x', y')`: the stored coordinate changes if and only if
    `(x', y')` lies in `1..rows × 1..cols` and holds 0; in that case the origin
    cell becomes 0, the destination becomes -1 and the stored coordinate is
    `(x', y')`; otherwise grid and stored coordinate are unchanged; in both
    cases every cell other than origin and destination keeps its value. -/
theorem C6_obstacle_step (rows cols : Int) (m : Grid) (o : DynamicObstacle) (d : Nat)
    (x' y' : Int)
    (hdest : (d = 0 ∧ x' = o.x ∧ y' = o.y + 1) ∨ (d = 1 ∧ x' = o.x + 1 ∧ y' = o.y) ∨
      (d = 2 ∧ x' = o.x ∧ y' = o.y - 1) ∨ (d = 3 ∧ x' = o.x - 1 ∧ y' = o.y)) :
    ((moveObstacle rows cols m o d).2.1 ≠ o ↔
      (1 ≤ x' ∧ x' ≤ rows ∧ 1 ≤ y' ∧ y' ≤ cols) ∧ m x' y' = 0) ∧
    ((1 ≤ x' ∧ x' ≤ rows ∧ 1 ≤ y' ∧ y' ≤ cols) ∧ m x' y' = 0 →
      (moveObstacle rows cols m o d).1 o.x o.y = 0 ∧
      (moveObstacle rows cols m o d).1 x' y' = -1 ∧
      (moveObstacle rows cols m o d).2.1 = ⟨x', y'⟩) ∧
    (¬ ((1 ≤ x' ∧ x' ≤ rows ∧ 1 ≤ y' ∧ y' ≤ cols) ∧ m x' y' = 0) →
      (moveObstacle rows cols m o d).1 = m ∧ (moveObstacle rows cols m o d).2.1 = o) ∧
    (∀ i j, ¬ (i = o.x ∧ j = o.y) → ¬ (i = x' ∧ j = y') →
      (moveObstacle rows cols m o d).1 i j = m i j) := by
  have hd : d < 4 := by omega
  have hdst : destination o d = (x', y') := by
    rcases hdest with ⟨h, hx, hy⟩ | ⟨h, hx, hy⟩ | ⟨h, hx, hy⟩ | ⟨h, hx, hy⟩ <;>
      subst h <;> simp [destination, hx, hy]
  have hne := destination_ne o d hd
  have hcases := moveObstacle_cases rows cols m o d
  rw [hdst] at hne hcases
  simp only at hne hcases
  have hoo : (⟨x', y'⟩ : DynamicObstacle) ≠ o := by
    intro e
    apply hne
    rw [← e]
    exact ⟨rfl, rfl⟩
  rcases hcases with ⟨e, hn⟩ | ⟨hl, e⟩
  · rw [e]
    refine ⟨?_, ?_, ?_, ?_⟩
    · constructor
      · intro h; exact absurd rfl h
      · intro h; exact absurd h hn
    · intro h; exact absurd h hn
    · intro _; exact ⟨rfl, rfl⟩
    · intro i j _ _; rfl
  · rw [e]
    refine ⟨?_, ?_, ?_, ?_⟩
    · constructor
      · intro _; exact hl
      · intro _; exact hoo
    · intro _
      refine ⟨?_, setCell_same _ _ _ _, rfl⟩
      show setCell (setCell m o.x o.y 0) x' y' (-1) o.x o.y = 0
      rw [setCell_other _ _ _ _ _ _ (fun h => hne ⟨h.1.symm, h.2.symm⟩), setCell_same]
    · intro h; exact absurd hl h
    · intro i j h1 h2
      show setCell (setCell m o.x o.y 0) x' y' (-1) i j = m i j
      rw [setCell_other _ _ _ _ _ _ h2, setCell_other _ _ _ _ _ _ h1]

/-- Witness for C6: an obstacle at `(1,1)` of an all-zero 3 × 3 grid draws right. -/
theorem C6_obstacle_step_witness :
    ((moveObstacle 3 3 (fun _ _ => 0) ⟨1, 1⟩ 0).2.1 ≠ ⟨1, 1⟩ ↔
      (1 ≤ (1 : Int) ∧ (1 : Int) ≤ 3 ∧ 1 ≤ (2 : Int) ∧ (2 : Int) ≤ 3) ∧
        (fun _ _ => 0 : Grid) 1 2 = 0) ∧
    ((1 ≤ (1 : Int) ∧ (1 : Int) ≤ 3 ∧ 1 ≤ (2 : Int) ∧ (2 : Int) ≤ 3) ∧
        (fun _ _ => 0 : Grid) 1 2 = 0 →
      (moveObstacle 3 3 (fun _ _ => 0) ⟨1, 1⟩ 0).1 1 1 = 0 ∧
      (moveObstacle 3 3 (fun _ _ => 0) ⟨1, 1⟩ 0).1 1 2 = -1 ∧
      (moveObstacle 3 3 (fun _ _ => 0) ⟨1, 1⟩ 0).2.1 = ⟨1, 2⟩) ∧
    (¬ ((1 ≤ (1 : Int) ∧ (1 : Int) ≤ 3 ∧ 1 ≤ (2 : Int) ∧ (2 : Int) ≤ 3) ∧
        (fun _ _ => 0 : Grid) 1 2 = 0) →
      (moveObstacle 3 3 (fun _ _ => 0) ⟨1, 1⟩ 0).1 = (fun _ _ => 0) ∧
      (moveObstacle 3 3 (fun _ _ => 0) ⟨1, 1⟩ 0).2.1 = ⟨1, 1⟩) ∧
    (∀ i j, ¬ (i = 1 ∧ j = 1) → ¬ (i = 1 ∧ j = 2) →
      (moveObstacle 3 3 (fun _ _ => 0) ⟨1, 1⟩ 0).1 i j = (fun _ _ => 0 : Grid) i j) :=
  C6_obstacle_step 3 3 (fun _ _ => 0) ⟨1, 1⟩ 0 1 2 (Or.inl ⟨rfl, rfl, rfl⟩)

/-! ## C7: what the writes of a run may do -/

theorem cleaningDFS_writesCall (rnd : Nat → Nat) (fuel : Nat) (s : State) (x y d : Int)
    (s' : State) (h : cleaningDFS rnd fuel s x y d = some s') : WritesCall s x y d s' := by
  refine cleaningDFS_induct rnd WritesCall ?_ ?_ fuel s x y d s' h
  · intro s x y d _ _
    exact ⟨[], by simp, (fun w hw => by cases hw), by simp [marks]⟩
  · intro s x y d s4 s5 s6 s7 he h4 h5 h6 h7 hd
    obtain ⟨t, et, hmt, hw⟩ := afterVisit_trace rnd s x y d
    obtain ⟨t4, e4, w4, c4⟩ := h4 isTag_one
    obtain ⟨t5, e5, w5, c5⟩ := h5 isTag_two
    obtain ⟨t6, e6, w6, c6⟩ := h6 isTag_three
    obtain ⟨t7, e7, w7, c7⟩ := h7 isTag_four
    refine ⟨⟨WriteKind.mark, x, y, s.map x y, d⟩ :: t ++ t4 ++ t5 ++ t6 ++ t7, ?_, ?_, ?_⟩
    · rw [e7, e6, e5, e4, et]
      simp [List.append_assoc]
    rotate_left
    · rw [c7, c6, c5, c4, afterVisit_count]
      simp only [marks_append, marks_mark_cons, hmt, List.length_append, List.length_cons,
        List.length_nil]
      push_cast
      ring
    · intro w hmem
      simp only [List.mem_append, List.mem_cons] at hmem
      rcases hmem with (((((hmem | hmem)) | hmem) | hmem) | hmem) | hmem
      · rw [hmem]
        exact Or.inl ⟨rfl, he.2.2.2.2, hd⟩
      · rcases hw w hmem with h' | h' | h'
        · exact Or.inr (Or.inr (Or.inl h'))
        · exact Or.inr (Or.inr (Or.inr h'))
        · exact Or.inr (Or.inl h')
      · exact w4 w hmem
      · exact w5 w hmem
      · exact w6 w hmem
      · exact w7 w hmem

theorem afterVisit_trace_quiet (rnd : Nat → Nat) (s : State) (x y d : Int)
    (h : s.dynamicObstacles = []) :
    ∃ t, (afterVisit rnd s x y d).trace = s.trace ++ t ∧
      ∀ w ∈ t, w.kind = WriteKind.mark ∨ w.kind = WriteKind.settle := by
  refine ⟨⟨WriteKind.mark, x, y, s.map x y, d⟩ :: settleWrites (setCell s.map x y d), ?_, ?_⟩
  · unfold afterVisit
    rw [updateDynamicObstacles_nil rnd (markCell s x y d) h]
    simp [updateMap, markCell]
  · intro w hw
    rw [List.mem_cons] at hw
    rcases hw with hw | hw
    · left; rw [hw]
    · right; exact (settleWrites_spec _ w hw).1

theorem cleaningDFS_quietCall (rnd : Nat → Nat) (fuel : Nat) (s : State) (x y d : Int)
    (s' : State) (h : cleaningDFS rnd fuel s x y d = some s') : QuietCall s x y d s' := by
  refine cleaningDFS_induct rnd QuietCall ?_ ?_ fuel s x y d s' h
  · intro s x y d _ _ hdyn
    exact ⟨hdyn, [], by simp, fun w hw => by cases hw⟩
  · intro s x y d s4 s5 s6 s7 _ h4 h5 h6 h7 _ hdyn
    obtain ⟨t, et, hw⟩ := afterVisit_trace_quiet rnd s x y d hdyn
    obtain ⟨d4, t4, e4, w4⟩ := h4 isTag_one (afterVisit_dyn rnd s x y d hdyn)
    obtain ⟨d5, t5, e5, w5⟩ := h5 isTag_two d4
    obtain ⟨d6, t6, e6, w6⟩ := h6 isTag_three d5
    obtain ⟨d7, t7, e7, w7⟩ := h7 isTag_four d6
    refine ⟨d7, t ++ t4 ++ t5 ++ t6 ++ t7, ?_, ?_⟩
    · rw [e7, e6, e5, e4, et]
      simp [List.append_assoc]
    · intro w hmem
      simp only [List.mem_append] at hmem
      rcases hmem with ((((hmem | hmem) | hmem) | hmem) | hmem)
      · exact hw w hmem
      · exact w4 w hmem
      · exact w5 w hmem
      · exact w6 w hmem
      · exact w7 w hmem

theorem lawful_jump {w : Write} (hl : Lawful w) (hj : jumps w) :
    w.kind = WriteKind.settle ∧ isTag w.before ∧ w.after = 5 := by
  unfold jumps at hj
  rcases hl with h | h | h | h
  · exact absurd h.2.1 hj.1
  · exact h
  · exact absurd h.2 hj.2.1
  · exact absurd h.2.1 hj.1

/-- C7 (as amended): for every state, the run of `cleaningDFS(1,1,1)` returns
    and each of its writes is of one of four kinds: the robot marks a cell
    holding 0 with a tag 1..4, `updateMap` turns a tag into 5, an obstacle
    stores 0 in the cell it leaves or -1 in a cell holding 0.  So the only
    writes from a non-zero value to a different non-zero value are those of
    `updateMap`, tag to 5.  When every mobile obstacle stands on a cell of its
    own holding -1 (in particular when there is none), no cell is marked
    twice, every marked cell ends swept and every cell swept at the start is
    still swept at the end; when no obstacle is mobile, only the robot and
    `updateMap` write. -/
theorem C7_writes_of_a_run (rnd : Nat → Nat) (s : State) :
    ∃ fuel s', cleaningDFS rnd fuel s 1 1 1 = some s' ∧
      (∀ w ∈ runTrace s s', Lawful w) ∧
      (∀ w ∈ runTrace s s', jumps w →
        w.kind = WriteKind.settle ∧ isTag w.before ∧ w.after = 5) ∧
      (Placed s.map s.dynamicObstacles →
        (marks (runTrace s s')).Nodup ∧ (∀ p ∈ marks (runTrace s s'), swept s'.map p) ∧
          ∀ p, swept s.map p → swept s'.map p) ∧
      (s.dynamicObstacles = [] →
        ∀ w ∈ runTrace s s', w.kind = WriteKind.mark ∨ w.kind = WriteKind.settle) := by
  obtain ⟨s', hrun⟩ := cleaningDFS_returns rnd (freeCount s + 1) s 1 1 1 isTag_one
    (Nat.lt_succ_self _)
  obtain ⟨t, et, hw, _⟩ := cleaningDFS_writesCall rnd _ s 1 1 1 s' hrun isTag_one
  have ert : runTrace s s' = t := runTrace_of_append s s' t et
  refine ⟨_, s', hrun, ?_, ?_, ?_, ?_⟩
  · rw [ert]; exact hw
  · rw [ert]; intro w hmem hj; exact lawful_jump (hw w hmem) hj
  · intro hp
    obtain ⟨_, hN, hk, hm, _⟩ := distinct_from_start rnd s hp _ s' hrun
    exact ⟨hN, hm, hk⟩
  · intro hdyn
    obtain ⟨_, t3, et3, hk3⟩ := cleaningDFS_quietCall rnd _ s 1 1 1 s' hrun isTag_one hdyn
    rw [runTrace_of_append s s' t3 et3]
    exact hk3

set_option maxRecDepth 100000 in
/-- C7 fails as stated.  On the empty 1 × 1 grid the run marks `(1,1)` with tag
    1 and `updateMap` then overwrites that 1 with 5, a write from a non-zero
    value to a different non-zero value.  And on the 2 × 3 grid with two mobile
    obstacles recorded at `(1,2)` the cell `(1,2)` is marked twice. -/
theorem C7_counterexample :
    (∃ s', cleaningDFS (fun _ => 0) 2 (emptyState 1 1) 1 1 1 = some s' ∧
      ∃ w ∈ runTrace (emptyState 1 1) s', jumps w) ∧
    (∃ s', cleaningDFS rndC4 6 stateC4 1 1 1 = some s' ∧
      ¬ (marks (runTrace stateC4 s')).Nodup) := by
  constructor
  · have h : (cleaningDFS (fun _ => 0) 2 (emptyState 1 1) 1 1 1).map
        (fun s' => runTrace (emptyState 1 1) s') =
        some [⟨WriteKind.mark, 1, 1, 0, 1⟩, ⟨WriteKind.settle, 1, 1, 1, 5⟩] := by decide!
    obtain ⟨s', hrun, hs⟩ := exists_of_map_eq_some _ _ _ h
    refine ⟨s', hrun, ⟨WriteKind.settle, 1, 1, 1, 5⟩, ?_, by decide⟩
    rw [hs]
    exact List.mem_cons_of_mem _ (List.mem_cons_self _ _)
  · obtain ⟨s', hrun, hs⟩ := exists_of_map_eq_some _ _ _ twin_obstacles_run
    refine ⟨s', hrun, ?_⟩
    have hm : marks (runTrace stateC4 s') = [(1, 1), (1, 2), (1, 3), (2, 3), (1, 2)] :=
      congrArg Prod.fst hs
    rw [hm]
    decide

/-! ## C8: termination and the bound on the number of marks -/

/-- Every call of `cleaningDFS` with a tag 1..4 returns, whatever the state;
    the increase of `cleaned_count` is the number of cells marked, and it is at
    most the number of cells of `1..rows × 1..cols`. -/
theorem cleaningDFS_within_cell_count (rnd : Nat → Nat) (s : State) (x y d : Int)
    (hd : isTag d) :
    ∃ fuel s', cleaningDFS rnd fuel s x y d = some s' ∧
      s'.cleaned_count - s.cleaned_count = ((marks (runTrace s s')).length : Int) ∧
      s'.cleaned_count - s.cleaned_count ≤ ((s.rows.toNat * s.cols.toNat : Nat) : Int) := by
  obtain ⟨s', hrun⟩ := cleaningDFS_returns rnd (freeCount s + 1) s x y d hd (Nat.lt_succ_self _)
  obtain ⟨_, _, hb, _⟩ := cleaningDFS_budget rnd _ s x y d s' hrun hd
  obtain ⟨t, et, _, hc⟩ := cleaningDFS_writesCall rnd _ s x y d s' hrun hd
  have hle := freeCount_le s
  have hbound : s'.cleaned_count - s.cleaned_count ≤ ((s.rows.toNat * s.cols.toNat : Nat) : Int) := by
    have : (freeCount s : Int) ≤ ((s.rows.toNat * s.cols.toNat : Nat) : Int) := by
      exact_mod_cast hle
    omega
  refine ⟨_, s', hrun, ?_, hbound⟩
  rw [runTrace_of_append s s' t et, hc]; ring

/-- C8: for every grid (`rows` and `cols` not negative), whatever its cells
    hold, every counter value, every list of mobile obstacles wherever they sit
    and every stream of random draws, a call of `cleaningDFS` with a direction
    tag 1..4 returns; the increase of `cleaned_count` is the number of cells
    marked, and it is at most `rows * cols`. -/
theorem C8_returns_within_cell_count (rnd : Nat → Nat) (s : State) (x y d : Int)
    (hd : isTag d) (hr : 0 ≤ s.rows) (hc : 0 ≤ s.cols) :
    ∃ fuel s', cleaningDFS rnd fuel s x y d = some s' ∧
      s'.cleaned_count - s.cleaned_count = ((marks (runTrace s s')).length : Int) ∧
      s'.cleaned_count - s.cleaned_count ≤ s.rows * s.cols := by
  obtain ⟨fuel, s', hrun, hm, hbound⟩ := cleaningDFS_within_cell_count rnd s x y d hd
  refine ⟨fuel, s', hrun, hm, ?_⟩
  have e : ((s.rows.toNat * s.cols.toNat : Nat) : Int) = s.rows * s.cols := by
    push_cast
    rw [Int.toNat_of_nonneg hr, Int.toNat_of_nonneg hc]
  rw [← e]
  exact hbound

/-- Witness for C8: the call `cleaningDFS(1,1,1)` on the 2 × 3 grid with two
    mobile obstacles recorded at the same cell. -/
theorem C8_returns_within_cell_count_witness :
    ∃ fuel s', cleaningDFS rndC4 fuel stateC4 1 1 1 = some s' ∧
      s'.cleaned_count - stateC4.cleaned_count = ((marks (runTrace stateC4 s')).length : Int) ∧
      s'.cleaned_count - stateC4.cleaned_count ≤ stateC4.rows * stateC4.cols :=
  C8_returns_within_cell_count rndC4 stateC4 1 1 1 isTag_one (by decide) (by decide)

/-! ## C9, C10: saving and loading -/

theorem loadRecords_in_range (l : List (Int × Int)) :
    ∀ u : State, (∀ p ∈ l, 1 ≤ p.1 ∧ p.1 ≤ u.rows ∧ 1 ≤ p.2 ∧ p.2 ≤ u.cols) →
      (loadRecords (l.flatMap fun p => [p.1, p.2]) u).rows = u.rows ∧
      (loadRecords (l.flatMap fun p => [p.1, p.2]) u).cols = u.cols ∧
      (loadRecords (l.flatMap fun p => [p.1, p.2]) u).obstacles = u.obstacles ++ l ∧
      (loadRecords (l.flatMap fun p => [p.1, p.2]) u).dynamicObstacles = u.dynamicObstacles := by
  induction l with
  | nil => intro u _; simp [loadRecords]
  | cons p ps ih =>
    intro u h
    have hp := h p (List.mem_cons_self _ _)
    have hp' : p.1 ≥ 1 ∧ p.1 ≤ u.rows ∧ p.2 ≥ 1 ∧ p.2 ≤ u.cols := hp
    have hstep : loadRecords ((p :: ps).flatMap fun p => [p.1, p.2]) u =
        loadRecords (ps.flatMap fun p => [p.1, p.2])
          { u with map := setCell u.map p.1 p.2 (-1), obstacles := u.obstacles ++ [p] } := by
      have hflat : (p :: ps).flatMap (fun p => [p.1, p.2]) =
          p.1 :: p.2 :: ps.flatMap (fun p => [p.1, p.2]) := by
        simp [List.flatMap_cons]
      rw [hflat]
      show (if p.1 ≥ 1 ∧ p.1 ≤ u.rows ∧ p.2 ≥ 1 ∧ p.2 ≤ u.cols then _ else _) = _
      rw [if_pos hp']
    rw [hstep]
    obtain ⟨h1, h2, h3, h4⟩ := ih
      { u with map := setCell u.map p.1 p.2 (-1), obstacles := u.obstacles ++ [p] }
      (fun q hq => h q (List.mem_cons_of_mem _ hq))
    refine ⟨h1, h2, ?_, h4⟩
    rw [h3]
    simp

/-- C9 (as amended): when every recorded obstacle lies in `1..rows × 1..cols`
    of the state saved (as it does when the dimensions were not changed after
    the obstacles were added), loading the file written by `saveMap`, into any
    state, gives the same `rows`, the same `cols` and the same obstacle list
    (so the same set of coordinates). -/
theorem C9_round_trip_in_range (s t : State) (hin : ∀ p ∈ s.obstacles, inGrid s p) :
    (loadMap (saveMap true s) t).rows = s.rows ∧
    (loadMap (saveMap true s) t).cols = s.cols ∧
    (loadMap (saveMap true s) t).obstacles = s.obstacles ∧
    (∀ p, p ∈ (loadMap (saveMap true s) t).obstacles ↔ p ∈ s.obstacles) := by
  have key := loadRecords_in_range s.obstacles
    { initializeMap t with obstacles := [], rows := s.rows, cols := s.cols } hin
  have e : loadMap (saveMap true s) t =
      loadRecords (s.obstacles.flatMap fun p => [p.1, p.2])
        { initializeMap t with obstacles := [], rows := s.rows, cols := s.cols } := by
    simp only [saveMap, loadMap, if_true]
  rw [e]
  obtain ⟨h1, h2, h3, _⟩ := key
  refine ⟨h1, h2, by simpa using h3, ?_⟩
  intro p
  rw [h3]
  simp

/-- Witness for C9: dimensions 3 × 3, then obstacles typed in at `(1,2)` and `(3,3)`. -/
theorem C9_round_trip_in_range_witness :
    (loadMap (saveMap true
      (setupObstacles (fun k => k) (setDimensions initialState 3 3) [(1, 2), (3, 3)]))
      initialState).rows =
      (setupObstacles (fun k => k) (setDimensions initialState 3 3) [(1, 2), (3, 3)]).rows ∧
    (loadMap (saveMap true
      (setupObstacles (fun k => k) (setDimensions initialState 3 3) [(1, 2), (3, 3)]))
      initialState).cols =
      (setupObstacles (fun k => k) (setDimensions initialState 3 3) [(1, 2), (3, 3)]).cols ∧
    (loadMap (saveMap true
      (setupObstacles (fun k => k) (setDimensions initialState 3 3) [(1, 2), (3, 3)]))
      initialState).obstacles =
      (setupObstacles (fun k => k) (setDimensions initialState 3 3) [(1, 2), (3, 3)]).obstacles ∧
    (∀ p, p ∈ (loadMap (saveMap true
      (setupObstacles (fun k => k) (setDimensions initialState 3 3) [(1, 2), (3, 3)]))
      initialState).obstacles ↔
      p ∈ (setupObstacles (fun k => k) (setDimensions initialState 3 3)
        [(1, 2), (3, 3)]).obstacles) :=
  C9_round_trip_in_range _ initialState (by decide)

/-- C9 fails after the grid was shrunk: the obstacle recorded at `(3,3)` is
    written to the file, and `loadMap` discards it because it lies outside the
    2 × 2 grid just read. -/
theorem C9_counterexample :
    (3, 3) ∈ stateC9.obstacles ∧
      (3, 3) ∉ (loadMap (saveMap true stateC9) stateC9).obstacles ∧
      ¬ (∀ p, p ∈ (loadMap (saveMap true stateC9) stateC9).obstacles ↔ p ∈ stateC9.obstacles) := by
  refine ⟨by decide, by decide, ?_⟩
  intro h
  exact absurd ((h (3, 3)).2 (by decide)) (by decide)

/-- The loop of `loadMap` never touches the list of mobile obstacles. -/
theorem loadRecords_dynamicObstacles :
    ∀ (n : Nat) (toks : MapFile) (u : State), toks.length ≤ n →
      (loadRecords toks u).dynamicObstacles = u.dynamicObstacles := by
  intro n
  induction n with
  | zero =>
    intro toks u h
    have : toks = [] := List.length_eq_zero.1 (Nat.le_zero.1 h)
    subst this
    simp [loadRecords]
  | succ n ih =>
    intro toks u h
    match toks, h with
    | [], _ => simp [loadRecords]
    | [a], _ => simp [loadRecords]
    | a :: b :: rest, h =>
      have hl : rest.length ≤ n := by
        simp only [List.length_cons] at h
        omega
      simp only [loadRecords]
      split
      · rw [ih rest _ hl]
      · rw [ih rest _ hl]

/-- `loadMap` leaves `dynamicObstacles` as it was, whatever the file holds. -/
theorem loadMap_dynamicObstacles (file : Option MapFile) (s : State) :
    (loadMap file s).dynamicObstacles = s.dynamicObstacles := by
  unfold loadMap
  split
  · rfl
  · split
    · rw [loadRecords_dynamicObstacles _ _ _ (le_refl _)]
      rfl
    · rfl
    · rfl

/-- C10, the code at the failing input: after loading the file `3 3 / 2 2`
    into a state with a mobile obstacle at `(1,1)`, the list of mobile
    obstacles still holds `(1,1)`, although the loaded grid has 0 there and
    the only recorded obstacle is `(2,2)`. -/
theorem C10_load_keeps_mobile_obstacles :
    stateC10.dynamicObstacles = [⟨1, 1⟩] ∧
      (loadMap (some [3, 3, 2, 2]) stateC10).dynamicObstacles = [⟨1, 1⟩] ∧
      (loadMap (some [3, 3, 2, 2]) stateC10).obstacles = [(2, 2)] ∧
      (loadMap (some [3, 3, 2, 2]) stateC10).map 1 1 = 0 := by
  decide

/-! ## C11 - C14: loading, adding obstacles, setting dimensions, a blocked start -/

/-- C12: one iteration of the loop of `setupObstacles`.  A coordinate outside
    `1..rows × 1..cols` leaves the whole state as it was.  Otherwise the cell
    becomes -1, the coordinate is appended to `obstacles`, it is appended to
    `dynamicObstacles` exactly when the coin `rand() % 2` is 0, and no other
    cell changes. -/
theorem C12_add_obstacle_step (rnd : Nat → Nat) (s : State) (x y : Int) :
    (¬ (1 ≤ x ∧ x ≤ s.rows ∧ 1 ≤ y ∧ y ≤ s.cols) → addObstacle rnd s x y = s) ∧
    ((1 ≤ x ∧ x ≤ s.rows ∧ 1 ≤ y ∧ y ≤ s.cols) →
      (addObstacle rnd s x y).map x y = -1 ∧
      (addObstacle rnd s x y).obstacles = s.obstacles ++ [(x, y)] ∧
      (rnd s.randCalls % 2 = 0 →
        (addObstacle rnd s x y).dynamicObstacles = s.dynamicObstacles ++ [⟨x, y⟩]) ∧
      (rnd s.randCalls % 2 ≠ 0 →
        (addObstacle rnd s x y).dynamicObstacles = s.dynamicObstacles) ∧
      (∀ i j, ¬ (i = x ∧ j = y) → (addObstacle rnd s x y).map i j = s.map i j)) := by
  constructor
  · intro h
    have h' : ¬ (x ≥ 1 ∧ x ≤ s.rows ∧ y ≥ 1 ∧ y ≤ s.cols) := h
    simp only [addObstacle, if_neg h']
  · intro h
    have h' : x ≥ 1 ∧ x ≤ s.rows ∧ y ≥ 1 ∧ y ≤ s.cols := h
    by_cases hc : rnd s.randCalls % 2 = 0
    · have e : addObstacle rnd s x y =
          { s with
            map := setCell s.map x y (-1)
            obstacles := s.obstacles ++ [(x, y)]
            randCalls := s.randCalls + 1
            dynamicObstacles := s.dynamicObstacles ++ [⟨x, y⟩] } := by
        simp only [addObstacle, if_pos h', if_pos hc]
      rw [e]
      exact ⟨setCell_same _ _ _ _, rfl, fun _ => rfl, fun h2 => absurd hc h2,
        fun i j hij => setCell_other _ _ _ _ _ _ hij⟩
    · have e : addObstacle rnd s x y =
          { s with
            map := setCell s.map x y (-1)
            obstacles := s.obstacles ++ [(x, y)]
            randCalls := s.randCalls + 1 } := by
        simp only [addObstacle, if_pos h', if_neg hc]
      rw [e]
      exact ⟨setCell_same _ _ _ _, rfl, fun h2 => absurd h2 hc, fun _ => rfl,
        fun i j hij => setCell_other _ _ _ _ _ _ hij⟩

/-- Case 1 of the menu stores whatever dimensions it reads and keeps both
    obstacle lists. -/
theorem setDimensions_rows_cols (s : State) (r c : Int) :
    (setDimensions s r c).rows = r ∧ (setDimensions s r c).cols = c ∧
      (setDimensions s r c).obstacles = s.obstacles ∧
      (setDimensions s r c).dynamicObstacles = s.dynamicObstacles :=
  ⟨rfl, rfl, rfl, rfl⟩

/-- The run on the empty 1 × 1 grid ends in `sweptOne`. -/
theorem sweptOne_is_run : cleaningDFS (fun _ => 0) 2 (emptyState 1 1) 1 1 1 = some sweptOne := by
  rfl

/-- C13, the code at the failing input: after the sweep of the 1 × 1 grid
    (`rows = cols = 1`, cell `(1,1)` holding 5), menu option 1 with the
    dimensions `-1` and `60` is not rejected: `rows` becomes -1, `cols` becomes
    60 and the swept cell is reset to 0. -/
theorem C13_dimensions_never_rejected :
    sweptOne.rows = 1 ∧ sweptOne.cols = 1 ∧ sweptOne.map 1 1 = 5 ∧
      (setDimensions sweptOne (-1) 60).rows = -1 ∧
      (setDimensions sweptOne (-1) 60).cols = 60 ∧
      (setDimensions sweptOne (-1) 60).map 1 1 = 0 := by
  decide

/-- C14: if `rows < 1` or `cols < 1` or cell `(1,1)` does not hold 0, the call
    `cleaningDFS(1,1,1)` returns at its guard and the state it returns, whatever
    the depth bound, is the state it started from: grid, obstacle lists,
    counter and log are unchanged. -/
theorem C14_blocked_start_changes_nothing (rnd : Nat → Nat) (s : State)
    (h : s.rows < 1 ∨ s.cols < 1 ∨ s.map 1 1 ≠ 0) :
    cleaningDFS rnd 1 s 1 1 1 = some s ∧
      ∀ fuel s', cleaningDFS rnd fuel s 1 1 1 = some s' → s' = s := by
  have hne : ¬ enters s 1 1 := by
    rintro ⟨_, h2, _, h4, h5⟩
    rcases h with h | h | h
    · omega
    · omega
    · exact h h5
  refine ⟨cleaningDFS_skip rnd 0 s 1 1 1 hne, ?_⟩
  intro fuel s' hrun
  exact cleaningDFS_unique rnd s 1 1 1 s' s fuel 1 hrun (cleaningDFS_skip rnd 0 s 1 1 1 hne)

/-- Witness for C14: an obstacle at `(1,1)` of the 3 × 3 grid. -/
theorem C14_blocked_start_changes_nothing_witness :
    cleaningDFS (fun _ => 0) 1 (setupObstacles (fun _ => 1) (emptyState 3 3) [(1, 1)]) 1 1 1 =
        some (setupObstacles (fun _ => 1) (emptyState 3 3) [(1, 1)]) ∧
      ∀ fuel s', cleaningDFS (fun _ => 0) fuel
        (setupObstacles (fun _ => 1) (emptyState 3 3) [(1, 1)]) 1 1 1 = some s' →
        s' = setupObstacles (fun _ => 1) (emptyState 3 3) [(1, 1)] :=
  C14_blocked_start_changes_nothing (fun _ => 0) _ (Or.inr (Or.inr (by decide)))

/-! ## C16, C17, C19: the settle pass and the storage array -/

theorem mem_indexRange (k : Int) : k ∈ indexRange ↔ 0 ≤ k ∧ k < MAX_SIZE := by
  unfold indexRange
  have h50 : MAX_SIZE = 50 := rfl
  have hn : Int.toNat 50 = 50 := rfl
  rw [List.mem_map, h50, hn]
  constructor
  · rintro ⟨n, hn', rfl⟩
    rw [List.mem_range] at hn'
    constructor
    · exact Int.ofNat_nonneg n
    · show (n : Int) < 50
      omega
  · rintro ⟨h0, h1⟩
    refine ⟨k.toNat, ?_, ?_⟩
    · rw [List.mem_range]; omega
    · show ((k.toNat : Nat) : Int) = k
      omega

/-- On a grid without tags in the storage array `updateMap` writes nothing. -/
theorem settleWrites_eq_nil (m : Grid) (h : ∀ i j, inArray i j → ¬ isTag (m i j)) :
    settleWrites m = [] := by
  unfold settleWrites
  rw [List.flatMap_eq_nil_iff]
  intro i hi
  rw [List.filterMap_eq_nil_iff]
  intro j hj
  have hin : inArray i j :=
    ⟨((mem_indexRange i).1 hi).1, ((mem_indexRange i).1 hi).2,
      ((mem_indexRange j).1 hj).1, ((mem_indexRange j).1 hj).2⟩
  rw [if_neg (h i j hin)]

/-- After `updateMap` no cell of the storage array holds a tag. -/
theorem updateMap_settled (s : State) (i j : Int) (h : inArray i j) :
    ¬ isTag ((updateMap s).map i j) := by
  simp only [updateMap]
  by_cases ht : isTag (s.map i j)
  · rw [if_pos ⟨h, ht⟩]; unfold isTag; omega
  · rw [if_neg (fun hc => ht hc.2)]; exact ht

theorem state_ext {a b : State} (h1 : a.map = b.map) (h2 : a.rows = b.rows)
    (h3 : a.cols = b.cols) (h4 : a.cleaned_count = b.cleaned_count)
    (h5 : a.obstacles = b.obstacles) (h6 : a.dynamicObstacles = b.dynamicObstacles)
    (h7 : a.randCalls = b.randCalls) (h8 : a.trace = b.trace) : a = b := by
  cases a
  cases b
  simp only at h1 h2 h3 h4 h5 h6 h7 h8
  subst h1 h2 h3 h4 h5 h6 h7 h8
  rfl

/-- C16: `updateMap` is idempotent: a second pass right after a first one
    changes nothing (and logs no write). -/
theorem C16_updateMap_idempotent (s : State) : updateMap (updateMap s) = updateMap s := by
  have hw : settleWrites (updateMap s).map = [] :=
    settleWrites_eq_nil _ (fun i j h => updateMap_settled s i j h)
  have hm : (updateMap (updateMap s)).map = (updateMap s).map := by
    funext i j
    show (if inArray i j ∧ isTag ((updateMap s).map i j) then 5 else (updateMap s).map i j) = _
    by_cases h : inArray i j
    · rw [if_neg (fun hc => updateMap_settled s i j h hc.2)]
    · rw [if_neg (fun hc => h hc.1)]
  have ht : (updateMap (updateMap s)).trace = (updateMap s).trace := by
    show (updateMap s).trace ++ settleWrites (updateMap s).map = _
    rw [hw, List.append_nil]
  exact state_ext hm rfl rfl rfl rfl rfl rfl ht

/-- C17: `updateMap` turns every cell of the storage array holding a tag 1..4
    into 5 and leaves every cell not holding a tag unchanged; so a cell holds 0
    after the pass if and only if it did before, likewise for -1, and the
    guard of `cleaningDFS` accepts the same cells before and after. -/
theorem C17_updateMap_only_settles_tags (s : State) :
    (∀ i j, inArray i j → isTag (s.map i j) → (updateMap s).map i j = 5) ∧
    (∀ i j, ¬ isTag (s.map i j) → (updateMap s).map i j = s.map i j) ∧
    (∀ i j, (updateMap s).map i j = 0 ↔ s.map i j = 0) ∧
    (∀ i j, (updateMap s).map i j = -1 ↔ s.map i j = -1) ∧
    (∀ x y, enters (updateMap s) x y ↔ enters s x y) := by
  refine ⟨?_, ?_, updateMap_map_eq_zero s, updateMap_map_eq_neg_one s, ?_⟩
  · intro i j h ht
    simp only [updateMap, if_pos (And.intro h ht)]
  · intro i j ht
    simp only [updateMap, if_neg (fun hc : inArray i j ∧ isTag (s.map i j) => ht hc.2)]
  · intro x y
    unfold enters
    rw [updateMap_map_eq_zero]
    rfl

/-- When `rows` and `cols` are below `MAX_SIZE`, every cell of
    `1..rows × 1..cols` is a valid index pair of the storage array. -/
theorem inArray_of_fit (s : State) (hr : s.rows < MAX_SIZE) (hc : s.cols < MAX_SIZE)
    (p : Int × Int) (h : inGrid s p) : inArray p.1 p.2 := by
  unfold inGrid at h
  unfold inArray
  omega

/-- C19, the code at the failing input: with `rows = cols = 50` the guard of
    `cleaningDFS` accepts `(50, 1)` and `(1, 50)`, and neither is a valid index
    pair of `map[MAX_SIZE][MAX_SIZE]`, whose indices run from 0 to 49. -/
theorem C19_index_fifty_outside_storage :
    (1 ≤ (emptyState 50 50).rows ∧ (emptyState 50 50).rows ≤ 50) ∧
    (1 ≤ (emptyState 50 50).cols ∧ (emptyState 50 50).cols ≤ 50) ∧
    enters (emptyState 50 50) 50 1 ∧ ¬ inArray 50 1 ∧
    enters (emptyState 50 50) 1 50 ∧ ¬ inArray 1 50 := by
  decide

/-! ## C15, C20: the coverage formula -/

theorem addObstacle_obstacles (rnd : Nat → Nat) (s : State) (x y : Int) :
    (addObstacle rnd s x y).obstacles =
      if 1 ≤ x ∧ x ≤ s.rows ∧ 1 ≤ y ∧ y ≤ s.cols then s.obstacles ++ [(x, y)]
      else s.obstacles := by
  unfold addObstacle
  by_cases h : x ≥ 1 ∧ x ≤ s.rows ∧ y ≥ 1 ∧ y ≤ s.cols
  · have h' : 1 ≤ x ∧ x ≤ s.rows ∧ 1 ≤ y ∧ y ≤ s.cols := h
    rw [if_pos h, if_pos h']
    split <;> rfl
  · have h' : ¬ (1 ≤ x ∧ x ≤ s.rows ∧ 1 ≤ y ∧ y ≤ s.cols) := h
    rw [if_neg h, if_neg h']

/-- `setupObstacles` records the coordinates inside the grid, in the order typed in. -/
theorem setupObstacles_obstacles (rnd : Nat → Nat) (coords : List (Int × Int)) :
    ∀ s : State, (setupObstacles rnd s coords).obstacles =
      s.obstacles ++ keptRecords s.rows s.cols coords := by
  induction coords with
  | nil => intro s; simp [setupObstacles, keptRecords]
  | cons p ps ih =>
    intro s
    have hstep : setupObstacles rnd s (p :: ps) =
        setupObstacles rnd (addObstacle rnd s p.1 p.2) ps := rfl
    rw [hstep, ih]
    obtain ⟨hr, hc, _, _⟩ := addObstacle_fields rnd s p.1 p.2
    rw [hr, hc, addObstacle_obstacles]
    by_cases h : 1 ≤ p.1 ∧ p.1 ≤ s.rows ∧ 1 ≤ p.2 ∧ p.2 ≤ s.cols
    · have hk : keptRecords s.rows s.cols (p :: ps) = p :: keptRecords s.rows s.cols ps := by
        unfold keptRecords
        rw [List.filter_cons_of_pos]
        exact decide_eq_true h
      rw [hk, if_pos h]
      simp
    · have hk : keptRecords s.rows s.cols (p :: ps) = keptRecords s.rows s.cols ps := by
        unfold keptRecords
        rw [List.filter_cons_of_neg]
        simpa using h
      rw [hk, if_neg h]

theorem mem_keptRecords (r c : Int) (records : List (Int × Int)) (p : Int × Int) :
    p ∈ keptRecords r c records ↔
      p ∈ records ∧ (1 ≤ p.1 ∧ p.1 ≤ r ∧ 1 ≤ p.2 ∧ p.2 ≤ c) := by
  simp [keptRecords, List.mem_filter]

/-- On a state built by `setupObstacles` at pairwise distinct coordinates the
    free cells are the cells of the grid that carry no recorded obstacle:
    their number plus the number of recorded obstacles is the number of cells. -/
theorem freeCount_setup (rnd : Nat → Nat) (r c : Int) (coords : List (Int × Int))
    (hnd : coords.Nodup) :
    freeCount (setupObstacles rnd (emptyState r c) coords) +
      (setupObstacles rnd (emptyState r c) coords).obstacles.length = r.toNat * c.toNat := by
  obtain ⟨hr, hc, _, _⟩ := setupObstacles_fields rnd coords (emptyState r c)
  have hobs := setupObstacles_obstacles rnd coords (emptyState r c)
  have hrec := setupObstacles_recorded rnd coords (emptyState r c) hnd
    (fun _ _ h => by cases h) (recorded_emptyState r c)
  have hval := grid_values_of_setup rnd coords (emptyState r c) (fun _ _ => Or.inl rfl)
  generalize setupObstacles rnd (emptyState r c) coords = s0 at hr hc hobs hrec hval
  have hr' : s0.rows = r := hr
  have hc' : s0.cols = c := hc
  have hobs' : s0.obstacles = keptRecords r c coords := by
    rw [hobs]; simp [emptyState, initialState]
  have hndo : s0.obstacles.Nodup := by
    rw [hobs']; exact hnd.filter _
  have hsub : s0.obstacles.toFinset ⊆ (Finset.Icc 1 r) ×ˢ (Finset.Icc 1 c) := by
    intro p hp
    rw [List.mem_toFinset, hobs', mem_keptRecords] at hp
    rw [Finset.mem_product, Finset.mem_Icc, Finset.mem_Icc]
    exact ⟨⟨hp.2.1, hp.2.2.1⟩, hp.2.2.2.1, hp.2.2.2.2⟩
  have hzero : zeroSet s0.rows s0.cols s0.map =
      ((Finset.Icc 1 r) ×ˢ (Finset.Icc 1 c)) \ s0.obstacles.toFinset := by
    ext p
    rw [mem_zeroSet, Finset.mem_sdiff, Finset.mem_product, Finset.mem_Icc, Finset.mem_Icc,
      List.mem_toFinset, hr', hc', ← hrec.2.1 p.1 p.2]
    constructor
    · rintro ⟨⟨h1, h2, h3, h4⟩, h0⟩
      exact ⟨⟨⟨h1, h2⟩, h3, h4⟩, by rw [h0]; omega⟩
    · rintro ⟨⟨⟨h1, h2⟩, h3, h4⟩, hn⟩
      refine ⟨⟨h1, h2, h3, h4⟩, ?_⟩
      rcases hval p.1 p.2 with h0 | h0
      · exact h0
      · exact absurd h0 hn
  unfold freeCount
  rw [hzero, Finset.card_sdiff hsub, List.toFinset_card_of_nodup hndo, Finset.card_product,
    Int.card_Icc, Int.card_Icc]
  have hle : s0.obstacles.length ≤ (r + 1 - 1).toNat * (c + 1 - 1).toNat := by
    have := Finset.card_le_card hsub
    rw [List.toFinset_card_of_nodup hndo, Finset.card_product, Int.card_Icc, Int.card_Icc] at this
    exact this
  have e1 : (r + 1 - 1).toNat = r.toNat := by congr 1; omega
  have e2 : (c + 1 - 1).toNat = c.toNat := by congr 1; omega
  rw [e1, e2] at hle ⊢
  omega

theorem cleaningDFS_obstacles (rnd : Nat → Nat) (fuel : Nat) (s : State) (x y d : Int)
    (s' : State) (h : cleaningDFS rnd fuel s x y d = some s') : s'.obstacles = s.obstacles := by
  refine cleaningDFS_induct rnd KeepsObstacles ?_ ?_ fuel s x y d s' h
  · intro s x y d _; rfl
  · intro s x y d s4 s5 s6 s7 _ h4 h5 h6 h7
    unfold KeepsObstacles at *
    rw [h7, h6, h5, h4, afterVisit_obstacles]

/-- C15 (as amended): with no mobile obstacle and the obstacles typed in at
    pairwise distinct coordinates on an all-zero grid, if the run of
    `cleaningDFS(1,1,1)` ends with `cleaned_count = rows * cols - obstacles.size()`
    (coverage 100%), then every cell of the grid that is not an obstacle is
    joined to `(1,1)` by a 4-neighbour path of cells that are not obstacles. -/
theorem C15_full_coverage_needs_connected (rnd : Nat → Nat) (r c : Int)
    (coords : List (Int × Int)) (hnd : coords.Nodup)
    (hdyn : (setupObstacles rnd (emptyState r c) coords).dynamicObstacles = []) :
    ∃ fuel s', cleaningDFS rnd fuel (setupObstacles rnd (emptyState r c) coords) 1 1 1 = some s' ∧
      (s'.cleaned_count = s'.rows * s'.cols - (s'.obstacles.length : Int) →
        ∀ p, inGrid (setupObstacles rnd (emptyState r c) coords) p →
          (setupObstacles rnd (emptyState r c) coords).map p.1 p.2 ≠ -1 →
          Joined (setupObstacles rnd (emptyState r c) coords) (1, 1) p) := by
  have hfree := freeCount_setup rnd r c coords hnd
  obtain ⟨hr, hc, hcount, _⟩ := setupObstacles_fields rnd coords (emptyState r c)
  have hval := grid_values_of_setup rnd coords (emptyState r c) (fun _ _ => Or.inl rfl)
  generalize setupObstacles rnd (emptyState r c) coords = s0 at hfree hr hc hcount hval hdyn
  have hr0 : s0.rows = r := hr
  have hc0 : s0.cols = c := hc
  have hcount0 : s0.cleaned_count = 0 := hcount
  obtain ⟨fuel, s', hrun, hS, hN, hj, hm, hcnt, _⟩ := sweep_from_start rnd s0 hdyn
  refine ⟨fuel, s', hrun, ?_⟩
  intro hfull p hp hpm
  have hr1 : 1 ≤ r := by rw [← hr0]; exact le_trans hp.1 hp.2.1
  have hc1 : 1 ≤ c := by rw [← hc0]; exact le_trans hp.2.2.1 hp.2.2.2
  have hsub : (marks (runTrace s0 s')).toFinset ⊆ zeroSet s0.rows s0.cols s0.map := by
    intro q hq
    rw [List.mem_toFinset, hm] at hq
    exact (mem_zeroSet_iff_free s0 q).2 hq.1
  have hcard : (zeroSet s0.rows s0.cols s0.map).card ≤ (marks (runTrace s0 s')).toFinset.card := by
    rw [List.toFinset_card_of_nodup hN]
    have h1 : ((marks (runTrace s0 s')).length : Int) =
        r * c - (s0.obstacles.length : Int) := by
      rw [hS.rows, hS.cols, hS.obstacles, hcnt, hcount0, hr0, hc0] at hfull
      omega
    have h2 : ((r.toNat * c.toNat : Nat) : Int) = r * c := by
      push_cast
      rw [Int.toNat_of_nonneg (by omega), Int.toNat_of_nonneg (by omega)]
    have h3 : ((freeCount s0 + s0.obstacles.length : Nat) : Int) = r * c := by
      rw [hfree]; exact h2
    unfold freeCount at h3
    push_cast at h3
    omega
  have heq := Finset.eq_of_subset_of_card_le hsub hcard
  have hpz : p ∈ zeroSet s0.rows s0.cols s0.map := by
    rw [mem_zeroSet_iff_free]
    refine ⟨hp, ?_⟩
    rcases hval p.1 p.2 with h0 | h0
    · exact h0
    · exact absurd h0 hpm
  rw [← heq, List.mem_toFinset, hj] at hpz
  exact hpz

/-- Witness for C15: one static obstacle at `(2,2)` of the 3 × 3 grid. -/
theorem C15_full_coverage_needs_connected_witness :
    ∃ fuel s', cleaningDFS (fun _ => 1) fuel
        (setupObstacles (fun _ => 1) (emptyState 3 3) [(2, 2)]) 1 1 1 = some s' ∧
      (s'.cleaned_count = s'.rows * s'.cols - (s'.obstacles.length : Int) →
        ∀ p, inGrid (setupObstacles (fun _ => 1) (emptyState 3 3) [(2, 2)]) p →
          (setupObstacles (fun _ => 1) (emptyState 3 3) [(2, 2)]).map p.1 p.2 ≠ -1 →
          Joined (setupObstacles (fun _ => 1) (emptyState 3 3) [(2, 2)]) (1, 1) p) :=
  C15_full_coverage_needs_connected (fun _ => 1) 3 3 [(2, 2)] (List.nodup_singleton _)
    (by decide)

set_option maxRecDepth 100000 in
/-- Run on the 1 × 3 grid with `(1,2)` recorded twice: only `(1,1)` is marked,
    the counter ends at 1, and `rows * cols - obstacles.size()` is `3 - 2 = 1`. -/
theorem twice_blocked_run :
    (cleaningDFS (fun _ => 1) 2 stateC15 1 1 1).map
      (fun s' => (marks (runTrace stateC15 s'), s'.cleaned_count,
        s'.rows * s'.cols - (s'.obstacles.length : Int))) = some ([(1, 1)], 1, 1) := by
  decide!

/-- C15 fails when a coordinate is typed in twice: on the 1 × 3 grid with
    `(1,2)` recorded twice (no mobile obstacle) the counter ends at
    `1 = rows * cols - obstacles.size()`, yet the cell `(1,3)`, in the grid and
    not an obstacle, is not joined to `(1,1)`. -/
theorem C15_counterexample :
    stateC15.dynamicObstacles = [] ∧
    ∃ s', cleaningDFS (fun _ => 1) 2 stateC15 1 1 1 = some s' ∧
      s'.cleaned_count = s'.rows * s'.cols - (s'.obstacles.length : Int) ∧
      inGrid stateC15 (1, 3) ∧ stateC15.map 1 3 ≠ -1 ∧ ¬ Joined stateC15 (1, 1) (1, 3) := by
  refine ⟨by decide, ?_⟩
  obtain ⟨s', hrun, hs⟩ := exists_of_map_eq_some _ _ _ twice_blocked_run
  have hm : marks (runTrace stateC15 s') = [(1, 1)] := congrArg Prod.fst hs
  have hc : s'.cleaned_count = 1 := congrArg (fun t => t.2.1) hs
  have hd : s'.rows * s'.cols - (s'.obstacles.length : Int) = 1 := congrArg (fun t => t.2.2) hs
  refine ⟨s', hrun, by rw [hc, hd], by decide, by decide, ?_⟩
  intro hj
  obtain ⟨fuel2, s2, hrun2, _, _, hj2, _, _, _⟩ :=
    sweep_from_start (fun _ => 1) stateC15 (by decide)
  have e : s2 = s' := cleaningDFS_unique _ stateC15 1 1 1 s2 s' fuel2 2 hrun2 hrun
  rw [e] at hj2
  have := (hj2 (1, 3)).2 hj
  rw [hm] at this
  exact absurd this (by decide)

/-- When the obstacles are typed in at pairwise distinct coordinates on an
    all-zero grid, the run of `cleaningDFS(1,1,1)` returns with
    `cleaned_count + obstacles.size()` at most the number of cells of
    `1..rows × 1..cols`. -/
theorem cleaningDFS_coverage_budget (rnd : Nat → Nat) (r c : Int)
    (coords : List (Int × Int)) (hnd : coords.Nodup) :
    ∃ fuel s', cleaningDFS rnd fuel (setupObstacles rnd (emptyState r c) coords) 1 1 1 = some s' ∧
      s'.rows = r ∧ s'.cols = c ∧
      s'.cleaned_count + (s'.obstacles.length : Int) ≤ ((r.toNat * c.toNat : Nat) : Int) := by
  have hfree := freeCount_setup rnd r c coords hnd
  obtain ⟨hr, hc, hcount, _⟩ := setupObstacles_fields rnd coords (emptyState r c)
  generalize setupObstacles rnd (emptyState r c) coords = s0 at hfree hr hc hcount
  have hr0 : s0.rows = r := hr
  have hc0 : s0.cols = c := hc
  have hcount0 : s0.cleaned_count = 0 := hcount
  obtain ⟨s', hrun⟩ := cleaningDFS_returns rnd (freeCount s0 + 1) s0 1 1 1 isTag_one
    (Nat.lt_succ_self _)
  obtain ⟨hr', hc', hb, _⟩ := cleaningDFS_budget rnd _ s0 1 1 1 s' hrun isTag_one
  have hobs := cleaningDFS_obstacles rnd _ s0 1 1 1 s' hrun
  refine ⟨_, s', hrun, by rw [hr', hr0], by rw [hc', hc0], ?_⟩
  rw [hobs, ← hfree]
  push_cast
  have : (0 : Int) ≤ (freeCount s' : Int) := Int.ofNat_nonneg _
  omega

/-- C20: on a grid (`rows` and `cols` not negative), when the obstacles are
    typed in with `setupObstacles` at pairwise distinct coordinates on an
    all-zero grid (any coin flips, any direction draws), the run of
    `cleaningDFS(1,1,1)` started with the counter at 0 returns with
    `cleaned_count ≤ rows * cols - obstacles.size()`: the coverage shown is never
    above 100%. -/
theorem C20_coverage_within_cell_count (rnd : Nat → Nat) (r c : Int)
    (coords : List (Int × Int)) (hr : 0 ≤ r) (hc : 0 ≤ c) (hnd : coords.Nodup) :
    ∃ fuel s', cleaningDFS rnd fuel (setupObstacles rnd (emptyState r c) coords) 1 1 1 = some s' ∧
      s'.cleaned_count ≤ s'.rows * s'.cols - (s'.obstacles.length : Int) := by
  obtain ⟨fuel, s', hrun, hr', hc', hbound⟩ := cleaningDFS_coverage_budget rnd r c coords hnd
  refine ⟨fuel, s', hrun, ?_⟩
  have e : ((r.toNat * c.toNat : Nat) : Int) = s'.rows * s'.cols := by
    push_cast
    rw [Int.toNat_of_nonneg hr, Int.toNat_of_nonneg hc, hr', hc']
  rw [e] at hbound
  omega

/-- Witness for C20: one mobile obstacle at `(1,2)` of the 2 × 2 grid. -/
theorem C20_coverage_within_cell_count_witness :
    ∃ fuel s', cleaningDFS rndC3 fuel (setupObstacles rndC3 (emptyState 2 2) [(1, 2)]) 1 1 1 =
        some s' ∧
      s'.cleaned_count ≤ s'.rows * s'.cols - (s'.obstacles.length : Int) :=
  C20_coverage_within_cell_count rndC3 2 2 [(1, 2)] (by decide) (by decide)
    (List.nodup_singleton _)

/-! ## C18: the fixed priority order -/

theorem markEvents_append (a b : List Write) :
    markEvents (a ++ b) = markEvents a ++ markEvents b := by
  simp [markEvents, List.filterMap_append]

theorem markEvents_eq_nil_of_kind (t : List Write) (h : ∀ w ∈ t, w.kind ≠ WriteKind.mark) :
    markEvents t = [] := by
  induction t with
  | nil => rfl
  | cons w rest ih =>
    have hw : w.kind ≠ WriteKind.mark := h w (List.mem_cons_self _ _)
    have hr : markEvents rest = [] := ih fun v hv => h v (List.mem_cons_of_mem _ hv)
    unfold markEvents at hr ⊢
    rw [List.filterMap_cons, if_neg hw]
    exact hr

theorem applyWrites_append (m : Grid) (a b : List Write) :
    applyWrites m (a ++ b) = applyWrites (applyWrites m a) b := by
  simp [applyWrites, List.foldl_append]

theorem applyWrites_cons (m : Grid) (w : Write) (t : List Write) :
    applyWrites m (w :: t) = applyWrites (setCell m w.x w.y w.after) t := rfl

theorem nextOK_append {rows cols : Int} {g : Grid} {p : Int × Int} {t : List Write}
    (h : NextOK rows cols g p t) (t2 : List Write) : NextOK rows cols g p (t ++ t2) := by
  intro k hk ho hfirst
  obtain ⟨tail, e⟩ := h k hk ho hfirst
  exact ⟨tail ++ markEvents t2, by rw [markEvents_append, e]; rfl⟩

theorem ordered_append (rows cols : Int) (t1 : List Write) :
    ∀ (g : Grid) (t2 : List Write), Ordered rows cols g t1 →
      Ordered rows cols (applyWrites g t1) t2 → Ordered rows cols g (t1 ++ t2) := by
  induction t1 with
  | nil => intro g t2 _ h; exact h
  | cons w t ih =>
    intro g t2 h1 h2
    exact ⟨fun hm => nextOK_append (h1.1 hm) t2, ih _ t2 h1.2 h2⟩

theorem ordered_of_no_marks (rows cols : Int) (t : List Write) :
    ∀ g : Grid, (∀ w ∈ t, w.kind ≠ WriteKind.mark) → Ordered rows cols g t := by
  induction t with
  | nil => intro g _; trivial
  | cons w t ih =>
    intro g h
    exact ⟨fun hm => absurd hm (h w (List.mem_cons_self _ _)),
      ih _ fun v hv => h v (List.mem_cons_of_mem _ hv)⟩

/-- In an ordered log, every mark is followed as `NextOK` says, in the grid
    replayed up to that mark. -/
theorem ordered_split (rows cols : Int) (A : List Write) :
    ∀ (g : Grid) (w : Write) (B : List Write), Ordered rows cols g (A ++ w :: B) →
      w.kind = WriteKind.mark →
      NextOK rows cols (applyWrites g (A ++ [w])) (w.x, w.y) B := by
  induction A with
  | nil => intro g w B h hm; exact h.1 hm
  | cons a A ih =>
    intro g w B h hm
    exact ih _ w B h.2 hm


/-- Replaying writes that all store `v`: a cell holds `v` if some write hit it
    and its old value otherwise. -/
theorem applyWrites_const (v : Int) (ws : List Write) :
    ∀ (m : Grid), (∀ w ∈ ws, w.after = v) → ∀ i j,
      applyWrites m ws i j = if (∃ w ∈ ws, w.x = i ∧ w.y = j) then v else m i j := by
  induction ws with
  | nil => intro m _ i j; simp [applyWrites]
  | cons w t ih =>
    intro m h i j
    rw [applyWrites_cons, ih _ (fun u hu => h u (List.mem_cons_of_mem _ hu))]
    have hw : w.after = v := h w (List.mem_cons_self _ _)
    by_cases ht : ∃ u ∈ t, u.x = i ∧ u.y = j
    · rw [if_pos ht, if_pos]
      obtain ⟨u, hu, e⟩ := ht
      exact ⟨u, List.mem_cons_of_mem _ hu, e⟩
    · rw [if_neg ht]
      by_cases hc : i = w.x ∧ j = w.y
      · rw [hc.1, hc.2, setCell_same, hw, if_pos]
        exact ⟨w, List.mem_cons_self _ _, rfl, rfl⟩
      · rw [setCell_other _ _ _ _ _ _ hc, if_neg]
        rintro ⟨u, hu, e⟩
        rw [List.mem_cons] at hu
        rcases hu with hu | hu
        · rw [hu] at e; exact hc ⟨e.1.symm, e.2.symm⟩
        · exact ht ⟨u, hu, e⟩

theorem mem_settleWrites_cell (m : Grid) (i j : Int) :
    (∃ w ∈ settleWrites m, w.x = i ∧ w.y = j) ↔ inArray i j ∧ isTag (m i j) := by
  constructor
  · rintro ⟨w, hw, e1, e2⟩
    obtain ⟨_, ht, _, hb, hin⟩ := settleWrites_spec m w hw
    rw [hb] at ht
    rw [e1, e2] at ht hin
    exact ⟨hin, ht⟩
  · rintro ⟨hin, ht⟩
    refine ⟨⟨WriteKind.settle, i, j, m i j, 5⟩, ?_, rfl, rfl⟩
    unfold settleWrites
    rw [List.mem_flatMap]
    refine ⟨i, (mem_indexRange i).2 ⟨hin.1, hin.2.1⟩, ?_⟩
    rw [List.mem_filterMap]
    refine ⟨j, (mem_indexRange j).2 ⟨hin.2.2.1, hin.2.2.2⟩, ?_⟩
    rw [if_pos ht]

/-- Replaying the writes logged by `updateMap` gives the grid `updateMap` leaves. -/
theorem applyWrites_settleWrites (m : Grid) (i j : Int) :
    applyWrites m (settleWrites m) i j =
      if inArray i j ∧ isTag (m i j) then 5 else m i j := by
  rw [applyWrites_const 5 (settleWrites m) m (fun w hw => (settleWrites_spec m w hw).2.2.1)]
  by_cases h : inArray i j ∧ isTag (m i j)
  · rw [if_pos h, if_pos ((mem_settleWrites_cell m i j).2 h)]
  · rw [if_neg h, if_neg (fun hc => h ((mem_settleWrites_cell m i j).1 hc))]

/-- Log and grid after a visit when no obstacle is mobile. -/
theorem afterVisit_replay (rnd : Nat → Nat) (s : State) (x y d : Int)
    (h : s.dynamicObstacles = []) :
    (afterVisit rnd s x y d).trace =
        s.trace ++ ⟨WriteKind.mark, x, y, s.map x y, d⟩ :: settleWrites (setCell s.map x y d) ∧
      (afterVisit rnd s x y d).map =
        applyWrites (setCell s.map x y d) (settleWrites (setCell s.map x y d)) := by
  constructor
  · unfold afterVisit
    rw [updateDynamicObstacles_nil rnd (markCell s x y d) h]
    simp [updateMap, markCell]
  · funext i j
    rw [afterVisit_map rnd s x y d h, applyWrites_settleWrites]

theorem enters_iff_openCell (s : State) (x y : Int) :
    enters s x y ↔ openCell s.rows s.cols s.map (x, y) := Iff.rfl

theorem openCell_afterVisit (rnd : Nat → Nat) (s : State) (x y d : Int)
    (h : s.dynamicObstacles = []) (q : Int × Int) :
    openCell (afterVisit rnd s x y d).rows (afterVisit rnd s x y d).cols
        (afterVisit rnd s x y d).map q ↔
      openCell s.rows s.cols (setCell s.map x y d) q := by
  have hz : (afterVisit rnd s x y d).map q.1 q.2 = 0 ↔ setCell s.map x y d q.1 q.2 = 0 := by
    unfold afterVisit
    rw [updateMap_map_eq_zero, updateDynamicObstacles_nil rnd (markCell s x y d) h]
    rfl
  unfold openCell
  rw [hz, afterVisit_rows, afterVisit_cols]


theorem enters_of_fields {s : State} {R C : Int} {G : Grid}
    (hr : s.rows = R) (hc : s.cols = C) (hm : s.map = G) (a b : Int) :
    enters s a b ↔ openCell R C G (a, b) := by
  subst hr hc hm
  exact Iff.rfl

theorem settleWrites_no_marks (m : Grid) :
    ∀ w ∈ settleWrites m, w.kind ≠ WriteKind.mark := by
  intro w hw
  rw [(settleWrites_spec m w hw).1]
  decide

/-- The order summary holds of every call that returns. -/
theorem cleaningDFS_orderCall (rnd : Nat → Nat) :
    ∀ fuel s x y d s', cleaningDFS rnd fuel s x y d = some s' → OrderCall s x y d s' := by
  apply cleaningDFS_induct rnd OrderCall
  · intro s x y d he hdyn
    exact ⟨hdyn, rfl, rfl, [], (List.append_nil _).symm, rfl, trivial,
      fun h => absurd h he, fun _ => rfl⟩
  · intro s x y d s4 s5 s6 s7 he h4 h5 h6 h7 hdyn
    have hd3 := afterVisit_dyn rnd s x y d hdyn
    obtain ⟨e3t, e3m⟩ := afterVisit_replay rnd s x y d hdyn
    obtain ⟨d4, r4, c4, t4, e4, m4, O4, F4, N4⟩ := h4 hd3
    obtain ⟨d5, r5, c5, t5, e5, m5, O5, F5, N5⟩ := h5 d4
    obtain ⟨d6, r6, c6, t6, e6, m6, O6, F6, N6⟩ := h6 d5
    obtain ⟨d7, r7, c7, t7, e7, m7, O7, F7, N7⟩ := h7 d6
    rw [afterVisit_rows] at r4
    rw [afterVisit_cols] at c4
    rw [r4] at r5
    rw [c4] at c5
    rw [r5] at r6
    rw [c5] at c6
    rw [r6] at r7
    rw [c6] at c7
    rw [afterVisit_rows, afterVisit_cols] at O4
    rw [r4, c4] at O5
    rw [r5, c5] at O6
    rw [r6, c6] at O7
    have hz0 : markEvents (settleWrites (setCell s.map x y d)) = [] :=
      markEvents_eq_nil_of_kind _ (settleWrites_no_marks _)
    have E3 : ∀ a b, enters (afterVisit rnd s x y d) a b ↔
        openCell s.rows s.cols (setCell s.map x y d) (a, b) := fun a b =>
      (enters_iff_openCell _ a b).trans (openCell_afterVisit rnd s x y d hdyn (a, b))
    have E4 : t4 = [] → ∀ a b, enters s4 a b ↔
        openCell s.rows s.cols (setCell s.map x y d) (a, b) := by
      intro h a b
      rw [h] at m4
      exact (enters_of_fields r4 c4 m4 a b).trans
        ((enters_of_fields rfl rfl rfl a b).symm.trans (E3 a b))
    have E5 : t4 = [] → t5 = [] → ∀ a b, enters s5 a b ↔
        openCell s.rows s.cols (setCell s.map x y d) (a, b) := by
      intro h h' a b
      rw [h'] at m5
      exact (enters_of_fields r5 c5 m5 a b).trans
        ((enters_of_fields r4 c4 rfl a b).symm.trans (E4 h a b))
    have E6 : t4 = [] → t5 = [] → t6 = [] → ∀ a b, enters s6 a b ↔
        openCell s.rows s.cols (setCell s.map x y d) (a, b) := by
      intro h h' h'' a b
      rw [h''] at m6
      exact (enters_of_fields r6 c6 m6 a b).trans
        ((enters_of_fields r5 c5 rfl a b).symm.trans (E5 h h' a b))
    refine ⟨d7, r7, c7,
      ⟨WriteKind.mark, x, y, s.map x y, d⟩ ::
        (settleWrites (setCell s.map x y d) ++ (t4 ++ (t5 ++ (t6 ++ t7)))), ?_, ?_, ?_, ?_, ?_⟩
    · rw [e7, e6, e5, e4, e3t]
      simp only [List.append_assoc, List.cons_append]
    · rw [m7, m6, m5, m4, e3m, applyWrites_cons, applyWrites_append, applyWrites_append,
        applyWrites_append, applyWrites_append]
    · refine ⟨fun _ => ?_, ?_⟩
      · intro k hk ho hfirst
        simp only [markEvents_append, hz0, List.nil_append]
        have hk' : k = 0 ∨ k = 1 ∨ k = 2 ∨ k = 3 := by omega
        rcases hk' with hk' | hk' | hk' | hk'
        · subst hk'
          obtain ⟨tail, ht⟩ := F4 ((E3 _ _).2 ho)
          exact ⟨tail ++ (markEvents t5 ++ (markEvents t6 ++ markEvents t7)), by rw [ht]; rfl⟩
        · subst hk'
          have n4 : t4 = [] := N4 fun h => hfirst 0 (by decide) ((E3 _ _).1 h)
          obtain ⟨tail, ht⟩ := F5 ((E4 n4 _ _).2 ho)
          exact ⟨tail ++ (markEvents t6 ++ markEvents t7), by rw [n4, ht]; rfl⟩
        · subst hk'
          have n4 : t4 = [] := N4 fun h => hfirst 0 (by decide) ((E3 _ _).1 h)
          have n5 : t5 = [] := N5 fun h => hfirst 1 (by decide) ((E4 n4 _ _).1 h)
          obtain ⟨tail, ht⟩ := F6 ((E5 n4 n5 _ _).2 ho)
          exact ⟨tail ++ markEvents t7, by rw [n4, n5, ht]; rfl⟩
        · subst hk'
          have n4 : t4 = [] := N4 fun h => hfirst 0 (by decide) ((E3 _ _).1 h)
          have n5 : t5 = [] := N5 fun h => hfirst 1 (by decide) ((E4 n4 _ _).1 h)
          have n6 : t6 = [] := N6 fun h => hfirst 2 (by decide) ((E5 n4 n5 _ _).1 h)
          obtain ⟨tail, ht⟩ := F7 ((E6 n4 n5 n6 _ _).2 ho)
          exact ⟨tail, by rw [n4, n5, n6, ht]; rfl⟩
      · refine ordered_append _ _ _ _ _ (ordered_of_no_marks _ _ _ _ (settleWrites_no_marks _)) ?_
        rw [← e3m]
        refine ordered_append _ _ _ _ _ O4 ?_
        rw [← m4]
        refine ordered_append _ _ _ _ _ O5 ?_
        rw [← m5]
        refine ordered_append _ _ _ _ _ O6 ?_
        rw [← m6]
        exact O7
    · intro _
      exact ⟨_, rfl⟩
    · intro h
      exact absurd he h


/-- C18: in a run of `cleaningDFS 1 1 1` with no mobile obstacle (the call
    returns), the first cell marked is the start cell `(1,1)` with tag 1 when
    the guard lets it through, the final grid is the replay of the logged writes,
    and whenever a cell is marked and, in the grid at that moment, some
    neighbour lies in `1..rows × 1..cols` and holds 0, the next cell marked is the
    first such neighbour in the order right, down, left, up, marked with tag
    1, 2, 3, 4 respectively. -/
theorem C18_fixed_priority_order (rnd : Nat → Nat) (s : State)
    (hdyn : s.dynamicObstacles = []) :
    ∃ fuel s', cleaningDFS rnd fuel s 1 1 1 = some s' ∧
      (enters s 1 1 → ∃ rest, markEvents (runTrace s s') = (1, 1, 1) :: rest) ∧
      s'.map = applyWrites s.map (runTrace s s') ∧
      ∀ A w B, runTrace s s' = A ++ w :: B → w.kind = WriteKind.mark →
        ∀ k, k < 4 →
          openCell s.rows s.cols (applyWrites s.map (A ++ [w])) (neighbour (w.x, w.y) k) →
          (∀ j, j < k →
            ¬ openCell s.rows s.cols (applyWrites s.map (A ++ [w])) (neighbour (w.x, w.y) j)) →
          ∃ rest, markEvents B =
            ((neighbour (w.x, w.y) k).1, (neighbour (w.x, w.y) k).2, (k : Int) + 1) :: rest := by
  obtain ⟨s', hrun⟩ := cleaningDFS_returns rnd (freeCount s + 1) s 1 1 1 (Or.inl rfl)
    (Nat.lt_succ_self _)
  obtain ⟨_, _, _, t, et, em, ho, hf, _⟩ := cleaningDFS_orderCall rnd _ s 1 1 1 s' hrun hdyn
  have hr : runTrace s s' = t := by
    unfold runTrace
    rw [et, List.drop_left]
  rw [← hr] at em ho hf
  refine ⟨_, s', hrun, hf, em, ?_⟩
  intro A w B hsplit hm
  rw [hsplit] at ho
  exact ordered_split s.rows s.cols A s.map w B ho hm

/-- Witness for C18: the empty 3 × 3 grid. -/
theorem C18_fixed_priority_order_witness :
    (emptyState 3 3).dynamicObstacles = [] ∧
    ∃ fuel s', cleaningDFS (fun _ => 0) fuel (emptyState 3 3) 1 1 1 = some s' ∧
      (enters (emptyState 3 3) 1 1 →
        ∃ rest, markEvents (runTrace (emptyState 3 3) s') = (1, 1, 1) :: rest) ∧
      s'.map = applyWrites (emptyState 3 3).map (runTrace (emptyState 3 3) s') ∧
      ∀ A w B, runTrace (emptyState 3 3) s' = A ++ w :: B → w.kind = WriteKind.mark →
        ∀ k, k < 4 →
          openCell (emptyState 3 3).rows (emptyState 3 3).cols
            (applyWrites (emptyState 3 3).map (A ++ [w])) (neighbour (w.x, w.y) k) →
          (∀ j, j < k →
            ¬ openCell (emptyState 3 3).rows (emptyState 3 3).cols
              (applyWrites (emptyState 3 3).map (A ++ [w])) (neighbour (w.x, w.y) j)) →
          ∃ rest, markEvents B =
            ((neighbour (w.x, w.y) k).1, (neighbour (w.x, w.y) k).2, (k : Int) + 1) :: rest :=
  ⟨rfl, C18_fixed_priority_order (fun _ => 0) (emptyState 3 3) rfl⟩

set_option maxRecDepth 100000 in
/-- The marks of the sweep of the empty 3 × 3 grid, with their tags: a spiral. -/
theorem spiral_three_by_three :
    (cleaningDFS (fun _ => 0) 10 (emptyState 3 3) 1 1 1).map
        (fun s' => markEvents (runTrace (emptyState 3 3) s')) =
      some [(1, 1, 1), (1, 2, 1), (1, 3, 1), (2, 3, 2), (3, 3, 2), (3, 2, 3), (3, 1, 3),
        (2, 1, 4), (2, 2, 1)] := by
  decide!

end Sweeper
